import Mathlib

/-!
# Midpoint circle rasteriser of `fish_scene.cpp`

A shallow embedding of `midpointCircle` together with the properties
checked against it.

Modelling conventions.

* Two readings of the C++ type `int` are embedded.  The definitions with
  suffix `32` (`start32`, `update32`, `plotEight32`, `loop32`,
  `iterations32`, `midpointCircle32`) evaluate the source lines on 32-bit
  two's complement integers, every arithmetic result being reduced modulo
  `2^32`.  This is the behaviour of the program on every `int` input.  The
  definitions without suffix evaluate the same lines on unbounded integers;
  they agree with the 32-bit ones for `r ≤ 10^9`, `|xc| ≤ 10^9`, `|yc| ≤ 10^9`,
  and serve as the arithmetic reference there.
* `drawPixel` has one observable effect, the submission of one vertex to
  the plotting surface.  It is modelled by the list of plotted points it
  appends to the output log, so that a call of `midpointCircle` yields the
  sequence of its plot calls, in order and with repetitions.
-/

namespace FishScene

/-- A device coordinate handed to the plotting surface. -/
abbrev Point := Int × Int

/-- The local variables `x`, `y`, `d` of `midpointCircle`. -/
structure Cursor where
  x : Int
  y : Int
  d : Int
  deriving DecidableEq, Repr

/-- `drawPixel(x, y)`: one vertex is submitted, logged as one plotted point. -/
def drawPixel (x y : Int) : List Point := [(x, y)]

/-- The eight `drawPixel` calls of one loop body (source lines 14 to 21),
in source order, with the coordinates computed on unbounded integers; the
`int` reading is `plotEight32`. -/
def plotEight (xc yc x y : Int) : List Point :=
  drawPixel (xc + x) (yc + y) ++
  drawPixel (xc - x) (yc + y) ++
  drawPixel (xc + x) (yc - y) ++
  drawPixel (xc - x) (yc - y) ++
  drawPixel (xc + y) (yc + x) ++
  drawPixel (xc - y) (yc + x) ++
  drawPixel (xc + y) (yc - x) ++
  drawPixel (xc - y) (yc - x)

/-- The update of `d`, `y` and `x` that ends one loop body (source lines
22 to 28): `if (d < 0) d += 2*x + 3; else { d += 2*(x - y) + 5; y--; } x++;`,
computed on unbounded integers; the `int` reading is `update32`. -/
def update (s : Cursor) : Cursor :=
  if s.d < 0 then
    { x := s.x + 1, y := s.y, d := s.d + (2 * s.x + 3) }
  else
    { x := s.x + 1, y := s.y - 1, d := s.d + (2 * (s.x - s.y) + 5) }

/-- The state set up by `int x = 0, y = r; int d = 1 - r;`, computed on
unbounded integers; the `int` reading is `start32`. -/
def start (r : Int) : Cursor := { x := 0, y := r, d := 1 - r }

/-- The `while (x <= y)` loop: the plot calls made from state `s` on. -/
def loop (xc yc : Int) (s : Cursor) : List Point :=
  if s.x ≤ s.y then
    plotEight xc yc s.x s.y ++ loop xc yc (update s)
  else
    []
termination_by (s.y - s.x + 1).toNat
decreasing_by
  unfold update
  split <;> simp only <;> omega

/-- The same loop, recording instead of the plot calls the state at the
start of every iteration that is executed. -/
def iterations (s : Cursor) : List Cursor :=
  if s.x ≤ s.y then
    s :: iterations (update s)
  else
    []
termination_by (s.y - s.x + 1).toNat
decreasing_by
  unfold update
  split <;> simp only <;> omega

/-- `midpointCircle(xc, yc, r)` on unbounded integers: the sequence of its
plot calls.  The `int` reading is `midpointCircle32`. -/
def midpointCircle (xc yc r : Int) : List Point :=
  loop xc yc (start r)

/-- The ways a call could be rejected.  The specification names one,
`InvalidArgument`. -/
inductive CallError where
  | invalidArgument
  deriving DecidableEq, Repr

/-- The outcome of a call as its caller sees it.  The source function has
return type `void`, contains no `throw`, no early `return` and no guard on
its arguments, so every call returns normally after the plot calls of
`midpointCircle`; no path produces an error. -/
def midpointCircleOutcome (xc yc r : Int) : Except CallError (List Point) :=
  Except.ok (midpointCircle xc yc r)

/-- The error metric named by the specification,
`F(x, y) = (x+1)² + (y − 1/2)² − r²`, over the rationals. -/
def midpointMetric (r x y : Int) : ℚ :=
  ((x : ℚ) + 1) ^ 2 + ((y : ℚ) - 1 / 2) ^ 2 - (r : ℚ) ^ 2

/-! ### The same code on 32-bit machine integers

The definitions above compute on unbounded integers.  The definitions of
this section follow the same source lines with every arithmetic operation
reduced modulo `2^32` and read back as a signed 32-bit value, as a
two's complement machine evaluates `int` arithmetic. -/

/-- The signed 32-bit value congruent to `z` modulo `2^32`, in the range
from `-2^31 = -2147483648` to `2^31 - 1 = 2147483647`. -/
def wrap32 (z : Int) : Int := (z + 2147483648) % 4294967296 - 2147483648

/-- Machine addition of two `int` values. -/
def add32 (a b : Int) : Int := wrap32 (a + b)

/-- Machine subtraction of two `int` values. -/
def sub32 (a b : Int) : Int := wrap32 (a - b)

/-- Machine multiplication of two `int` values. -/
def mul32 (a b : Int) : Int := wrap32 (a * b)

/-- The eight `drawPixel` calls of source lines 14 to 21 with machine
arithmetic in the coordinates. -/
def plotEight32 (xc yc x y : Int) : List Point :=
  drawPixel (add32 xc x) (add32 yc y) ++
  drawPixel (sub32 xc x) (add32 yc y) ++
  drawPixel (add32 xc x) (sub32 yc y) ++
  drawPixel (sub32 xc x) (sub32 yc y) ++
  drawPixel (add32 xc y) (add32 yc x) ++
  drawPixel (sub32 xc y) (add32 yc x) ++
  drawPixel (add32 xc y) (sub32 yc x) ++
  drawPixel (sub32 xc y) (sub32 yc x)

/-- Source lines 22 to 28 with machine arithmetic. -/
def update32 (s : Cursor) : Cursor :=
  if s.d < 0 then
    { x := add32 s.x 1, y := s.y, d := add32 s.d (add32 (mul32 2 s.x) 3) }
  else
    { x := add32 s.x 1, y := sub32 s.y 1,
      d := add32 s.d (add32 (mul32 2 (sub32 s.x s.y)) 5) }

/-- The state set up by source lines 11 and 12 with machine arithmetic. -/
def start32 (r : Int) : Cursor := { x := 0, y := r, d := sub32 1 r }

/-- The `while (x <= y)` loop with machine arithmetic.  With wrapping the
gap `y - x` need not shrink, so the loop is run for at most `fuel`
iterations: the result is `none` when the guard still holds after them. -/
def loop32 (xc yc : Int) : Nat → Cursor → Option (List Point)
  | 0, s => if s.x ≤ s.y then none else some []
  | fuel + 1, s =>
    if s.x ≤ s.y then
      (loop32 xc yc fuel (update32 s)).map (fun rest => plotEight32 xc yc s.x s.y ++ rest)
    else
      some []

/-- The loop with machine arithmetic, recording instead of the plot calls
the state at the start of every iteration that is executed. -/
def iterations32 : Nat → Cursor → Option (List Cursor)
  | 0, s => if s.x ≤ s.y then none else some []
  | fuel + 1, s =>
    if s.x ≤ s.y then
      (iterations32 fuel (update32 s)).map (fun rest => s :: rest)
    else
      some []

/-- `midpointCircle(xc, yc, r)` with machine arithmetic, run for at most
`fuel` iterations. -/
def midpointCircle32 (fuel : Nat) (xc yc r : Int) : Option (List Point) :=
  loop32 xc yc fuel (start32 r)

/-- The integer values that one loop body computes, in exact arithmetic:
the sixteen coordinates handed to `drawPixel`, then the subexpressions and
results of the branch that is taken, then `x + 1`. -/
def computedInBody (xc yc : Int) (s : Cursor) : List Int :=
  (plotEight xc yc s.x s.y).flatMap (fun p => [p.1, p.2]) ++
  (if s.d < 0 then
    [2 * s.x, 2 * s.x + 3, s.d + (2 * s.x + 3)]
  else
    [s.x - s.y, 2 * (s.x - s.y), 2 * (s.x - s.y) + 5,
     s.d + (2 * (s.x - s.y) + 5), s.y - 1]) ++
  [s.x + 1]

/-- Every integer value that a call computes, in exact arithmetic: the
arguments, the initial `x = 0`, `y = r`, `d = 1 - r`, and the values
computed in each executed loop body.  The values of `x`, `y`, `d` after a
loop body, the last one included, are among those the body computes. -/
def computedValues (xc yc r : Int) : List Int :=
  [xc, yc, r, 0, 1 - r] ++ (iterations (start r)).flatMap (computedInBody xc yc)

/-! ## Unfolding the loop -/

/-- Every loop body that is entered shrinks the gap `y - x + 1`. -/
theorem update_measure (s : Cursor) (h : s.x ≤ s.y) :
    ((update s).y - (update s).x + 1).toNat < (s.y - s.x + 1).toNat := by
  unfold update
  split <;> simp only <;> omega

theorem loop_of_le (xc yc : Int) (s : Cursor) (h : s.x ≤ s.y) :
    loop xc yc s = plotEight xc yc s.x s.y ++ loop xc yc (update s) := by
  rw [loop, if_pos h]

theorem loop_of_not_le (xc yc : Int) (s : Cursor) (h : ¬ s.x ≤ s.y) :
    loop xc yc s = [] := by
  rw [loop, if_neg h]

theorem iterations_of_le (s : Cursor) (h : s.x ≤ s.y) :
    iterations s = s :: iterations (update s) := by
  rw [iterations, if_pos h]

theorem iterations_of_not_le (s : Cursor) (h : ¬ s.x ≤ s.y) :
    iterations s = [] := by
  rw [iterations, if_neg h]

/-- Induction along the executions of the loop: a property that holds for
every state failing the guard, and for a state passing the guard whenever
it holds for the updated state, holds for every state. -/
theorem loop_induction (motive : Cursor → Prop)
    (stop : ∀ s, ¬ s.x ≤ s.y → motive s)
    (next : ∀ s, s.x ≤ s.y → motive (update s) → motive s) :
    ∀ s, motive s := by
  intro s
  generalize hn : (s.y - s.x + 1).toNat = n
  induction n using Nat.strong_induction_on generalizing s with
  | _ n ih =>
    by_cases h : s.x ≤ s.y
    · exact next s h (ih _ (hn ▸ update_measure s h) (update s) rfl)
    · exact stop s h

/-- The plot calls of the loop are the eight plot calls of each executed
iteration, in order. -/
theorem loop_eq_flatMap (xc yc : Int) (s : Cursor) :
    loop xc yc s = (iterations s).flatMap (fun c => plotEight xc yc c.x c.y) := by
  induction s using loop_induction with
  | stop s h => rw [loop_of_not_le _ _ _ h, iterations_of_not_le _ h]; rfl
  | next s h ih => rw [loop_of_le _ _ _ h, iterations_of_le _ h, List.flatMap_cons, ih]

theorem length_plotEight (xc yc x y : Int) : (plotEight xc yc x y).length = 8 := rfl

theorem length_loop (xc yc : Int) (s : Cursor) :
    (loop xc yc s).length = 8 * (iterations s).length := by
  induction s using loop_induction with
  | stop s h => rw [loop_of_not_le _ _ _ h, iterations_of_not_le _ h]; rfl
  | next s h ih =>
    rw [loop_of_le _ _ _ h, iterations_of_le _ h, List.length_append, ih,
      length_plotEight, List.length_cons]
    omega

/-- The executed iterations are the successive updates of the entry state:
the `k`-th iteration starts in state `update^[k] s`. -/
theorem iterations_eq_map (s : Cursor) :
    iterations s = (List.range (iterations s).length).map (fun k => update^[k] s) := by
  induction s using loop_induction with
  | stop s h => rw [iterations_of_not_le _ h]; rfl
  | next s h ih =>
    rw [iterations_of_le _ h, List.length_cons, List.range_succ_eq_map, List.map_cons,
      List.map_map]
    conv_lhs => rw [ih]
    rfl

/-- A property established on entry and kept by every loop body holds at
the start of every executed iteration, where the guard holds too. -/
theorem iterations_invariant (P : Cursor → Prop)
    (keep : ∀ s, P s → s.x ≤ s.y → P (update s)) :
    ∀ s, P s → ∀ c ∈ iterations s, P c ∧ c.x ≤ c.y := by
  intro s
  induction s using loop_induction with
  | stop s h => intro _ c hc; rw [iterations_of_not_le _ h] at hc; cases hc
  | next s h ih =>
    intro hs c hc
    rw [iterations_of_le _ h, List.mem_cons] at hc
    rcases hc with rfl | hc
    · exact ⟨hs, h⟩
    · exact ih (keep s hs h) c hc

theorem midpointCircle_eq_flatMap (xc yc r : Int) :
    midpointCircle xc yc r =
      (iterations (start r)).flatMap (fun c => plotEight xc yc c.x c.y) :=
  loop_eq_flatMap xc yc (start r)

theorem mem_midpointCircle (xc yc r : Int) (p : Point) :
    p ∈ midpointCircle xc yc r ↔
      ∃ c ∈ iterations (start r), p ∈ plotEight xc yc c.x c.y := by
  rw [midpointCircle_eq_flatMap, List.mem_flatMap]

/-- Loop invariant for a radius `r ≥ 1`.  At the start of every executed
iteration the cursor lies in the octant `0 ≤ x ≤ y ≤ r`, the decision
variable is `(x+1)² + y² − y − r²`, and it is confined to
`2x + 1 − 2y ≤ d ≤ 2x`. -/
theorem cursor_invariant (r : Int) (hr : 1 ≤ r) :
    ∀ c ∈ iterations (start r),
      0 ≤ c.x ∧ c.x ≤ c.y ∧ c.y ≤ r ∧
      c.d = (c.x + 1) ^ 2 + c.y ^ 2 - c.y - r ^ 2 ∧
      2 * c.x + 1 - 2 * c.y ≤ c.d ∧ c.d ≤ 2 * c.x := by
  have key := iterations_invariant
    (fun s => 0 ≤ s.x ∧ s.y ≤ r ∧ s.d = (s.x + 1) ^ 2 + s.y ^ 2 - s.y - r ^ 2 ∧
      (s.x ≤ s.y → 2 * s.x + 1 - 2 * s.y ≤ s.d ∧ s.d ≤ 2 * s.x))
    (by
      intro s ⟨hx, hy, hd, hb⟩ hle
      obtain ⟨hlo, hhi⟩ := hb hle
      unfold update
      split
      · refine ⟨by simp only; omega, by simp only; omega, ?_, ?_⟩
        · simp only; rw [hd]; ring
        · simp only; intro _; omega
      · refine ⟨by simp only; omega, by simp only; omega, ?_, ?_⟩
        · simp only; rw [hd]; ring
        · simp only; intro _; omega)
    (start r)
    (by
      refine ⟨le_refl _, le_refl _, ?_, ?_⟩
      · simp only [start]; ring
      · simp only [start]; intro _; omega)
  intro c hc
  obtain ⟨⟨hx, hy, hd, hb⟩, hle⟩ := key c hc
  exact ⟨hx, hle, hy, hd, (hb hle).1, (hb hle).2⟩

/-- At every cursor where the loop plots, `x² + y²` lies strictly between
`(r − 1)²` and `(r + 1)²`. -/
theorem cursor_near_circle (r : Int) (hr : 1 ≤ r) (c : Cursor)
    (hc : c ∈ iterations (start r)) :
    (r - 1) ^ 2 < c.x ^ 2 + c.y ^ 2 ∧ c.x ^ 2 + c.y ^ 2 < (r + 1) ^ 2 := by
  obtain ⟨hx, hxy, hy, hd, hlo, hhi⟩ := cursor_invariant r hr c hc
  have hG : c.x ^ 2 + c.y ^ 2 = r ^ 2 + (c.d - 2 * c.x - 1 + c.y) := by rw [hd]; ring
  constructor
  · rcases eq_or_lt_of_le hr with h1 | h1
    · subst h1
      have hy0 : 0 ≤ c.y := le_trans hx hxy
      rcases eq_or_lt_of_le hy with hy1 | hy1
      · rw [hy1]; nlinarith [sq_nonneg c.x]
      · exfalso
        have hy2 : c.y = 0 := by omega
        have hx2 : c.x = 0 := by omega
        rw [hy2, hx2] at hG
        norm_num at hG
        omega
    · rw [hG]; nlinarith
  · rw [hG]; nlinarith

/-- The squared distance from the centre is the same, `x² + y²`, for each of
the eight points plotted in one iteration. -/
theorem plotEight_dist (xc yc x y : Int) (p : Point) (hp : p ∈ plotEight xc yc x y) :
    (p.1 - xc) ^ 2 + (p.2 - yc) ^ 2 = x ^ 2 + y ^ 2 := by
  simp only [plotEight, drawPixel, List.cons_append, List.nil_append, List.mem_cons,
    List.mem_singleton, List.not_mem_nil, or_false] at hp
  rcases hp with h | h | h | h | h | h | h | h <;> subst h <;> simp only <;> ring

/-- Membership in the eight plot calls of one iteration, in terms of the
offsets from the centre: the offsets are `(±x, ±y)` or `(±y, ±x)`. -/
theorem mem_plotEight_iff (xc yc x y a b : Int) :
    (xc + a, yc + b) ∈ plotEight xc yc x y ↔
      ((a = x ∨ a = -x) ∧ (b = y ∨ b = -y)) ∨ ((a = y ∨ a = -y) ∧ (b = x ∨ b = -x)) := by
  simp only [plotEight, drawPixel, List.cons_append, List.nil_append, List.mem_cons,
    List.mem_singleton, List.not_mem_nil, or_false, Prod.mk.injEq, sub_eq_add_neg,
    add_right_inj]
  tauto

/-- A negative radius fails the guard on entry: no iteration is executed. -/
theorem iterations_start_neg (r : Int) (hr : r < 0) : iterations (start r) = [] :=
  iterations_of_not_le _ (by simp only [start]; omega)

/-- A negative radius fails the guard on entry: nothing is plotted. -/
theorem midpointCircle_neg (xc yc r : Int) (hr : r < 0) : midpointCircle xc yc r = [] :=
  loop_of_not_le _ _ _ (by simp only [start]; omega)

/-- A radius `r ≥ 0` passes the guard on entry: the output starts with the
eight plot calls for the cursor `(0, r)`. -/
theorem midpointCircle_nonneg (xc yc r : Int) (hr : 0 ≤ r) :
    midpointCircle xc yc r = plotEight xc yc 0 r ++ loop xc yc (update (start r)) :=
  loop_of_le xc yc (start r) hr

/-! ## The claims -/

/-- C1. For `xc = 0, yc = 0, r = 3` the loop runs exactly three iterations,
entered with `(x, y, d)` equal to `(0,3,-2)`, `(1,3,1)` and `(2,2,2)`; the
first eight plot calls are `(0,3),(0,3),(0,-3),(0,-3),(3,0),(-3,0),(3,0),(-3,0)`
in this order; and 24 plot calls are made in total. -/
theorem C1_trace_radius_three :
    iterations (start 3) =
      [{ x := 0, y := 3, d := -2 }, { x := 1, y := 3, d := 1 }, { x := 2, y := 2, d := 2 }] ∧
    (midpointCircle 0 0 3).take 8 =
      [(0, 3), (0, 3), (0, -3), (0, -3), (3, 0), (-3, 0), (3, 0), (-3, 0)] ∧
    (midpointCircle 0 0 3).length = 24 := by
  refine ⟨?_, ?_, ?_⟩
  · simp [iterations, start, update]
  · simp [midpointCircle, loop, start, update, plotEight, drawPixel]
  · simp [midpointCircle, loop, start, update, plotEight, drawPixel]

/-- On exact integers, for `r ≥ 1` every point of `midpointCircle xc yc r` has
`(r-1)² < (X-xc)² + (Y-yc)² < (r+1)²`, and its Euclidean distance to the
centre differs from `r` by less than 1. -/
theorem exact_points_near_circle (xc yc r : Int) (hr : 1 ≤ r) (p : Point)
    (hp : p ∈ midpointCircle xc yc r) :
    ((r - 1) ^ 2 < (p.1 - xc) ^ 2 + (p.2 - yc) ^ 2 ∧
      (p.1 - xc) ^ 2 + (p.2 - yc) ^ 2 < (r + 1) ^ 2) ∧
    |Real.sqrt ((((p.1 - xc) ^ 2 + (p.2 - yc) ^ 2 : Int) : ℝ)) - (r : ℝ)| < 1 := by
  obtain ⟨c, hc, hpc⟩ := (mem_midpointCircle xc yc r p).1 hp
  have hdist := plotEight_dist xc yc c.x c.y p hpc
  have hnear := cursor_near_circle r hr c hc
  rw [← hdist] at hnear
  refine ⟨hnear, ?_⟩
  obtain ⟨hlo, hhi⟩ := hnear
  have hlo' : ((r : ℝ) - 1) ^ 2 < (((p.1 - xc) ^ 2 + (p.2 - yc) ^ 2 : Int) : ℝ) := by
    exact_mod_cast hlo
  have hhi' : (((p.1 - xc) ^ 2 + (p.2 - yc) ^ 2 : Int) : ℝ) < ((r : ℝ) + 1) ^ 2 := by
    exact_mod_cast hhi
  have hr' : (1 : ℝ) ≤ (r : ℝ) := by exact_mod_cast hr
  rw [abs_lt]
  constructor
  · have : (r : ℝ) - 1 < Real.sqrt (((p.1 - xc) ^ 2 + (p.2 - yc) ^ 2 : Int) : ℝ) :=
      (Real.lt_sqrt (by linarith)).2 hlo'
    linarith
  · have : Real.sqrt (((p.1 - xc) ^ 2 + (p.2 - yc) ^ 2 : Int) : ℝ) < (r : ℝ) + 1 :=
      (Real.sqrt_lt' (by linarith)).2 hhi'
    linarith

/-- On exact integers the points of `midpointCircle xc yc r` are closed under
the reflections about the centre. -/
theorem exact_reflections (xc yc r a b : Int)
    (h : (xc + a, yc + b) ∈ midpointCircle xc yc r) :
    (xc - a, yc + b) ∈ midpointCircle xc yc r ∧
    (xc + a, yc - b) ∈ midpointCircle xc yc r ∧
    (xc + b, yc + a) ∈ midpointCircle xc yc r := by
  obtain ⟨c, hc, hp⟩ := (mem_midpointCircle xc yc r _).1 h
  have H := (mem_plotEight_iff xc yc c.x c.y a b).1 hp
  refine ⟨?_, ?_, ?_⟩
  · refine (mem_midpointCircle xc yc r _).2 ⟨c, hc, ?_⟩
    rw [sub_eq_add_neg xc a]
    refine (mem_plotEight_iff xc yc c.x c.y (-a) b).2 ?_
    rcases H with ⟨ha | ha, hb | hb⟩ | ⟨ha | ha, hb | hb⟩ <;> subst ha hb <;> simp
  · refine (mem_midpointCircle xc yc r _).2 ⟨c, hc, ?_⟩
    rw [sub_eq_add_neg yc b]
    refine (mem_plotEight_iff xc yc c.x c.y a (-b)).2 ?_
    rcases H with ⟨ha | ha, hb | hb⟩ | ⟨ha | ha, hb | hb⟩ <;> subst ha hb <;> simp
  · refine (mem_midpointCircle xc yc r _).2 ⟨c, hc, ?_⟩
    refine (mem_plotEight_iff xc yc c.x c.y b a).2 ?_
    rcases H with ⟨ha | ha, hb | hb⟩ | ⟨ha | ha, hb | hb⟩ <;> subst ha hb <;> simp

/-- On exact integers the output is the concatenation, over the executed
iterations, of the eight points in source order, and its length is 8 times
the number of iterations. -/
theorem exact_eight_plots (xc yc r : Int) :
    midpointCircle xc yc r =
      (iterations (start r)).flatMap (fun c =>
        [(xc + c.x, yc + c.y), (xc - c.x, yc + c.y), (xc + c.x, yc - c.y),
         (xc - c.x, yc - c.y), (xc + c.y, yc + c.x), (xc - c.y, yc + c.x),
         (xc + c.y, yc - c.x), (xc - c.y, yc - c.x)]) ∧
    (midpointCircle xc yc r).length = 8 * (iterations (start r)).length := by
  constructor
  · rw [midpointCircle_eq_flatMap]
    simp only [plotEight, drawPixel, List.cons_append, List.nil_append]
  · exact length_loop xc yc (start r)

/-- C5, as stated, fails: for `r = 0` the call makes eight plot calls, so
its output is not the single point of the centre.  Shown at centre `(2, -1)`. -/
theorem C5_counterexample :
    (midpointCircle 2 (-1) 0).length = 8 ∧ midpointCircle 2 (-1) 0 ≠ [(2, -1)] := by
  constructor <;> simp [midpointCircle, loop, start, update, plotEight, drawPixel]

/-- C5, amended. For `r = 0` the loop runs exactly one iteration, with
cursor `(0, 0)` and `d = 1`, and makes eight plot calls, each of them at the
centre `(xc, yc)`; so `(xc, yc)` is the only point that is plotted. -/
theorem C5_radius_zero (xc yc : Int) :
    iterations (start 0) = [{ x := 0, y := 0, d := 1 }] ∧
    midpointCircle xc yc 0 =
      [(xc, yc), (xc, yc), (xc, yc), (xc, yc), (xc, yc), (xc, yc), (xc, yc), (xc, yc)] ∧
    ∀ p : Point, p ∈ midpointCircle xc yc 0 ↔ p = (xc, yc) := by
  have hout : midpointCircle xc yc 0 =
      [(xc, yc), (xc, yc), (xc, yc), (xc, yc), (xc, yc), (xc, yc), (xc, yc), (xc, yc)] := by
    simp [midpointCircle, loop, start, update, plotEight, drawPixel]
  refine ⟨by simp [iterations, start, update], hout, fun p => ?_⟩
  rw [hout]
  simp

/-- C6, as stated, fails: for `r = -1` the call is not rejected with
`InvalidArgument`; it returns normally, having plotted nothing. -/
theorem C6_counterexample :
    midpointCircleOutcome 0 0 (-1) ≠ Except.error CallError.invalidArgument ∧
    midpointCircleOutcome 0 0 (-1) = Except.ok [] := by
  constructor
  · intro h
    cases h
  · rw [midpointCircleOutcome, midpointCircle_neg 0 0 (-1) (by decide)]

/-- C6, amended. For every `r < 0` the call raises no error: it returns
normally to its caller, without any plot call. -/
theorem C6_negative_radius_returns (xc yc r : Int) (hr : r < 0) :
    midpointCircleOutcome xc yc r = Except.ok [] := by
  rw [midpointCircleOutcome, midpointCircle_neg xc yc r hr]

/-- Witness for C6, amended: radius `-4` about `(10, 20)`. -/
theorem C6_negative_radius_returns_witness :
    (-4 : Int) < 0 ∧ midpointCircleOutcome 10 20 (-4) = Except.ok [] :=
  ⟨by decide, C6_negative_radius_returns 10 20 (-4) (by decide)⟩

/-- On exact integers the amount a loop body adds to `d` is the change of the
metric `F(x, y) = (x+1)² + (y − 1/2)² − r²` from the cursor before the step
to the cursor after it, on either branch. -/
theorem update_metric_delta (r : Int) (s : Cursor) :
    (((update s).d - s.d : Int) : ℚ) =
      midpointMetric r (update s).x (update s).y - midpointMetric r s.x s.y ∧
    (if s.d < 0 then
      (update s).d = s.d + (2 * s.x + 3) ∧
      (update s).x = s.x + 1 ∧ (update s).y = s.y ∧
      ((2 * s.x + 3 : Int) : ℚ) = midpointMetric r (s.x + 1) s.y - midpointMetric r s.x s.y
    else
      (update s).d = s.d + (2 * (s.x - s.y) + 5) ∧
      (update s).x = s.x + 1 ∧ (update s).y = s.y - 1 ∧
      ((2 * (s.x - s.y) + 5 : Int) : ℚ) =
        midpointMetric r (s.x + 1) (s.y - 1) - midpointMetric r s.x s.y) := by
  by_cases h : s.d < 0
  · simp only [update, if_pos h, midpointMetric, true_and]
    push_cast
    constructor <;> ring
  · simp only [update, if_neg h, midpointMetric, true_and]
    push_cast
    constructor <;> ring

/-! ## Further properties of the cursor and of the decision variable -/

/-- The closed form `d = (x+1)² + y² − y − r²` is kept by a loop body. -/
theorem update_decision (r : Int) (s : Cursor)
    (h : s.d = (s.x + 1) ^ 2 + s.y ^ 2 - s.y - r ^ 2) :
    (update s).d = ((update s).x + 1) ^ 2 + (update s).y ^ 2 - (update s).y - r ^ 2 := by
  unfold update
  split <;> simp only <;> rw [h] <;> ring

/-- The closed form of `d` holds after any number of loop bodies, for every
radius. -/
theorem iterate_decision (r : Int) (k : Nat) :
    (update^[k] (start r)).d =
      ((update^[k] (start r)).x + 1) ^ 2 + (update^[k] (start r)).y ^ 2
        - (update^[k] (start r)).y - r ^ 2 := by
  induction k with
  | zero => simp only [Function.iterate_zero, id_eq, start]; ring
  | succ k ih =>
    rw [Function.iterate_succ_apply']
    exact update_decision r _ ih

/-- Every executed iteration starts in an iterate of the entry state. -/
theorem mem_iterations_iff (s c : Cursor) :
    c ∈ iterations s ↔ ∃ k, k < (iterations s).length ∧ c = update^[k] s := by
  conv_lhs => rw [iterations_eq_map s]
  simp only [List.mem_map, List.mem_range]
  constructor
  · rintro ⟨k, hk, rfl⟩
    exact ⟨k, hk, rfl⟩
  · rintro ⟨k, hk, rfl⟩
    exact ⟨k, hk, rfl⟩

/-- On exact integers, for `r ≥ 1` and every cursor of an executed iteration,
`(2y − 1)² < 4(r² − x²) < (2y + 1)²`, `r² − x²` is not negative and
`|y − sqrt (r² − x²)| < 1/2`. -/
theorem exact_nearest_integer (r : Int) (hr : 1 ≤ r) (c : Cursor)
    (hc : c ∈ iterations (start r)) :
    ((2 * c.y - 1) ^ 2 < 4 * (r ^ 2 - c.x ^ 2) ∧
      4 * (r ^ 2 - c.x ^ 2) < (2 * c.y + 1) ^ 2) ∧
    0 ≤ r ^ 2 - c.x ^ 2 ∧
    |(c.y : ℝ) - Real.sqrt (((r ^ 2 - c.x ^ 2 : Int)) : ℝ)| < 1 / 2 := by
  obtain ⟨hx, hxy, hy, hd, hlo, hhi⟩ := cursor_invariant r hr c hc
  rw [hd] at hlo hhi
  have h1 : (2 * c.y - 1) ^ 2 < 4 * (r ^ 2 - c.x ^ 2) := by nlinarith
  have h2 : 4 * (r ^ 2 - c.x ^ 2) < (2 * c.y + 1) ^ 2 := by nlinarith
  have h0 : 0 ≤ r ^ 2 - c.x ^ 2 := by nlinarith [sq_nonneg (2 * c.y - 1)]
  refine ⟨⟨h1, h2⟩, h0, ?_⟩
  have hy0 : (0 : ℝ) ≤ (c.y : ℝ) := by exact_mod_cast le_trans hx hxy
  have h1' : ((c.y : ℝ) - 1 / 2) ^ 2 < (((r ^ 2 - c.x ^ 2 : Int)) : ℝ) := by
    have : (((2 * c.y - 1) ^ 2 : Int) : ℝ) < ((4 * (r ^ 2 - c.x ^ 2) : Int) : ℝ) := by
      exact_mod_cast h1
    push_cast at this ⊢
    nlinarith
  have h2' : (((r ^ 2 - c.x ^ 2 : Int)) : ℝ) < ((c.y : ℝ) + 1 / 2) ^ 2 := by
    have : ((4 * (r ^ 2 - c.x ^ 2) : Int) : ℝ) < (((2 * c.y + 1) ^ 2 : Int) : ℝ) := by
      exact_mod_cast h2
    push_cast at this ⊢
    nlinarith
  rw [abs_lt]
  constructor
  · have := (Real.sqrt_lt' (by linarith : (0 : ℝ) < (c.y : ℝ) + 1 / 2)).2 h2'
    linarith
  · have := Real.lt_sqrt_of_sq_lt h1'
    linarith

/-- A state whose `d` has the closed form `(x+1)² + y² − y − r²` has
`4d + 1 = 4(x+1)² + (2y − 1)² − 4r²`: `d` is the midpoint metric less `1/4`,
and `d < 0` exactly when the midpoint `(x+1, y − 1/2)` is strictly inside
the circle of radius `r`. -/
theorem decision_metric (r : Int) (s : Cursor)
    (h : s.d = (s.x + 1) ^ 2 + s.y ^ 2 - s.y - r ^ 2) :
    4 * s.d + 1 = 4 * (s.x + 1) ^ 2 + (2 * s.y - 1) ^ 2 - 4 * r ^ 2 ∧
    (s.d : ℚ) = midpointMetric r s.x s.y - 1 / 4 ∧
    (s.d < 0 ↔ ((s.x : ℚ) + 1) ^ 2 + ((s.y : ℚ) - 1 / 2) ^ 2 < (r : ℚ) ^ 2) := by
  have hq : (s.d : ℚ) = midpointMetric r s.x s.y - 1 / 4 := by
    rw [h, midpointMetric]
    push_cast
    ring
  refine ⟨by rw [h]; ring, hq, ?_⟩
  rw [midpointMetric] at hq
  constructor
  · intro hd
    have : (s.d : ℚ) ≤ -1 := by exact_mod_cast (by omega : s.d ≤ -1)
    linarith
  · intro hin
    have : (s.d : ℚ) < 0 := by linarith
    exact_mod_cast this

theorem plotEight_translate (xc yc x y : Int) :
    plotEight xc yc x y = (plotEight 0 0 x y).map (fun p => (p.1 + xc, p.2 + yc)) := by
  simp only [plotEight, drawPixel, List.cons_append, List.nil_append, List.map_cons,
    List.map_nil, zero_add, zero_sub, add_comm xc, add_comm yc, sub_eq_add_neg]

/-- On exact integers the output about `(xc, yc)` is the output about `(0, 0)`
with `(xc, yc)` added to every point. -/
theorem exact_translation (xc yc r : Int) :
    midpointCircle xc yc r = (midpointCircle 0 0 r).map (fun p => (p.1 + xc, p.2 + yc)) ∧
    (midpointCircle xc yc r).length = (midpointCircle 0 0 r).length ∧
    (midpointCircle xc yc r).length = 8 * (iterations (start r)).length ∧
    midpointCircle xc yc r =
      (iterations (start r)).flatMap (fun c => plotEight xc yc c.x c.y) := by
  have h : midpointCircle xc yc r =
      (midpointCircle 0 0 r).map (fun p => (p.1 + xc, p.2 + yc)) := by
    rw [midpointCircle_eq_flatMap xc yc r, midpointCircle_eq_flatMap 0 0 r, List.map_flatMap]
    congr 1
    funext c
    exact plotEight_translate xc yc c.x c.y
  refine ⟨h, ?_, length_loop xc yc (start r), midpointCircle_eq_flatMap xc yc r⟩
  rw [h, List.length_map]

/-- C15. For every `r < 0` the guard `x <= y` fails on entry (`0 > r`): the
call ends without executing the loop body, on unbounded and on 32-bit
integers alike, and makes no plot call. -/
theorem C15_negative_radius_no_plot (xc yc r : Int) (hr : r < 0) :
    (start r).y < (start r).x ∧
    iterations (start r) = [] ∧
    midpointCircle xc yc r = [] ∧
    (midpointCircle xc yc r).length = 0 ∧
    midpointCircle32 0 xc yc r = some [] := by
  have hg : ¬ (start r).x ≤ (start r).y := by simp only [start]; omega
  refine ⟨lt_of_not_le hg, iterations_start_neg r hr, midpointCircle_neg xc yc r hr, ?_, ?_⟩
  · rw [midpointCircle_neg xc yc r hr]
    rfl
  · have hg32 : ¬ (start32 r).x ≤ (start32 r).y := by simp only [start32]; omega
    rw [midpointCircle32, loop32, if_neg hg32]

/-- Witness for C15: radius `-2` about `(5, 7)`. -/
theorem C15_negative_radius_no_plot_witness :
    (-2 : Int) < 0 ∧
    (start (-2)).y < (start (-2)).x ∧
    iterations (start (-2)) = [] ∧
    midpointCircle 5 7 (-2) = [] ∧
    (midpointCircle 5 7 (-2)).length = 0 ∧
    midpointCircle32 0 5 7 (-2) = some [] :=
  ⟨by decide, C15_negative_radius_no_plot 5 7 (-2) (by decide)⟩

/-! ## Agreement of the 32-bit computation with the exact one -/

/-- A value in the 32-bit range is left unchanged by wrapping. -/
theorem wrap32_of_range (z : Int) (h : -2147483648 ≤ z ∧ z ≤ 2147483647) :
    wrap32 z = z := by
  unfold wrap32
  omega

/-- The bounds on the state that one loop body hands to the next, for a
radius `r ≥ 0`: `0 ≤ x`, `y ≤ r`, and `2x + 1 − 2y ≤ d ≤ 2x + 1` as long as the
guard holds. -/
theorem update_keeps_range (r : Int) (s : Cursor)
    (hx : 0 ≤ s.x) (hy : s.y ≤ r)
    (hd : s.x ≤ s.y → 2 * s.x + 1 - 2 * s.y ≤ s.d ∧ s.d ≤ 2 * s.x + 1)
    (hle : s.x ≤ s.y) :
    0 ≤ (update s).x ∧ (update s).y ≤ r ∧
    ((update s).x ≤ (update s).y →
      2 * (update s).x + 1 - 2 * (update s).y ≤ (update s).d ∧
      (update s).d ≤ 2 * (update s).x + 1) := by
  obtain ⟨hlo, hhi⟩ := hd hle
  unfold update
  split
  · refine ⟨by simp only; omega, by simp only; omega, ?_⟩
    simp only
    intro _
    omega
  · refine ⟨by simp only; omega, by simp only; omega, ?_⟩
    simp only
    intro _
    omega

/-- The bounds hold on entry for every radius `r ≥ 0`. -/
theorem start_range (r : Int) (hr : 0 ≤ r) :
    0 ≤ (start r).x ∧ (start r).y ≤ r ∧
    ((start r).x ≤ (start r).y →
      2 * (start r).x + 1 - 2 * (start r).y ≤ (start r).d ∧
      (start r).d ≤ 2 * (start r).x + 1) := by
  simp only [start]
  refine ⟨le_refl _, le_refl _, fun _ => ?_⟩
  omega

/-- For a radius `r ≥ 0`, the bounds hold at the start of every executed
iteration. -/
theorem range_invariant (r : Int) (hr : 0 ≤ r) :
    ∀ c ∈ iterations (start r),
      0 ≤ c.x ∧ c.x ≤ c.y ∧ c.y ≤ r ∧
      2 * c.x + 1 - 2 * c.y ≤ c.d ∧ c.d ≤ 2 * c.x + 1 := by
  have key := iterations_invariant
    (fun s => 0 ≤ s.x ∧ s.y ≤ r ∧
      (s.x ≤ s.y → 2 * s.x + 1 - 2 * s.y ≤ s.d ∧ s.d ≤ 2 * s.x + 1))
    (fun s hs hle => update_keeps_range r s hs.1 hs.2.1 hs.2.2 hle)
    (start r) (start_range r hr)
  intro c hc
  obtain ⟨⟨hx, hy, hd⟩, hle⟩ := key c hc
  exact ⟨hx, hle, hy, (hd hle).1, (hd hle).2⟩

/-- Within the bounds, with `r`, `|xc|`, `|yc|` at most `10^9`, every value
computed in a loop body is in the 32-bit range. -/
theorem computedInBody_range (xc yc r : Int) (s : Cursor)
    (hr : r ≤ 1000000000)
    (hxc : -1000000000 ≤ xc ∧ xc ≤ 1000000000)
    (hyc : -1000000000 ≤ yc ∧ yc ≤ 1000000000)
    (hx : 0 ≤ s.x) (hle : s.x ≤ s.y) (hy : s.y ≤ r)
    (hlo : 2 * s.x + 1 - 2 * s.y ≤ s.d) (hhi : s.d ≤ 2 * s.x + 1) :
    ∀ v ∈ computedInBody xc yc s, -2147483648 ≤ v ∧ v ≤ 2147483647 := by
  unfold computedInBody
  split
  · simp only [plotEight, drawPixel, List.cons_append, List.nil_append, List.flatMap_cons,
      List.flatMap_nil, List.append_nil, List.forall_mem_cons, List.not_mem_nil,
      false_implies, implies_true, and_true]
    omega
  · simp only [plotEight, drawPixel, List.cons_append, List.nil_append, List.flatMap_cons,
      List.flatMap_nil, List.append_nil, List.forall_mem_cons, List.not_mem_nil,
      false_implies, implies_true, and_true]
    omega

/-- Within the bounds the 32-bit loop body computes the exact state. -/
theorem update32_eq_update (r : Int) (s : Cursor)
    (hr : r ≤ 1000000000)
    (hx : 0 ≤ s.x) (hle : s.x ≤ s.y) (hy : s.y ≤ r)
    (hlo : 2 * s.x + 1 - 2 * s.y ≤ s.d) (hhi : s.d ≤ 2 * s.x + 1) :
    update32 s = update s := by
  by_cases h : s.d < 0
  · simp only [update32, update, if_pos h, add32, mul32, wrap32, Cursor.mk.injEq, true_and]
    constructor <;> omega
  · simp only [update32, update, if_neg h, add32, sub32, mul32, wrap32, Cursor.mk.injEq]
    refine ⟨?_, ?_, ?_⟩ <;> omega

/-- Within the bounds the 32-bit coordinates are the exact ones. -/
theorem plotEight32_eq_plotEight (xc yc r x y : Int)
    (hr : r ≤ 1000000000)
    (hxc : -1000000000 ≤ xc ∧ xc ≤ 1000000000)
    (hyc : -1000000000 ≤ yc ∧ yc ≤ 1000000000)
    (hx : 0 ≤ x) (hle : x ≤ y) (hy : y ≤ r) :
    plotEight32 xc yc x y = plotEight xc yc x y := by
  unfold plotEight32 plotEight add32 sub32
  rw [wrap32_of_range (xc + x) (by omega), wrap32_of_range (xc - x) (by omega),
    wrap32_of_range (yc + y) (by omega), wrap32_of_range (yc - y) (by omega),
    wrap32_of_range (xc + y) (by omega), wrap32_of_range (xc - y) (by omega),
    wrap32_of_range (yc + x) (by omega), wrap32_of_range (yc - x) (by omega)]

/-- Within the bounds, and given fuel for `y - x + 1` iterations, the 32-bit
loop ends and makes exactly the plot calls of the exact loop. -/
theorem loop32_eq_loop (xc yc r : Int)
    (hr : r ≤ 1000000000)
    (hxc : -1000000000 ≤ xc ∧ xc ≤ 1000000000)
    (hyc : -1000000000 ≤ yc ∧ yc ≤ 1000000000) :
    ∀ (fuel : Nat) (s : Cursor), 0 ≤ s.x → s.y ≤ r →
      (s.x ≤ s.y → 2 * s.x + 1 - 2 * s.y ≤ s.d ∧ s.d ≤ 2 * s.x + 1) →
      (s.y - s.x + 1).toNat ≤ fuel →
      loop32 xc yc fuel s = some (loop xc yc s) := by
  intro fuel
  induction fuel with
  | zero =>
    intro s _ _ _ hfuel
    have hg : ¬ s.x ≤ s.y := by omega
    rw [loop32, if_neg hg, loop_of_not_le xc yc s hg]
  | succ n ih =>
    intro s hx hy hd hfuel
    by_cases hle : s.x ≤ s.y
    · obtain ⟨hlo, hhi⟩ := hd hle
      obtain ⟨hx1, hy1, hd1⟩ := update_keeps_range r s hx hy hd hle
      have hm := update_measure s hle
      rw [loop32, if_pos hle, update32_eq_update r s hr hx hle hy hlo hhi,
        plotEight32_eq_plotEight xc yc r s.x s.y hr hxc hyc hx hle hy,
        ih (update s) hx1 hy1 hd1 (by omega), loop_of_le xc yc s hle]
      rfl
    · rw [loop32, if_neg hle, loop_of_not_le xc yc s hle]

/-- C16. For `0 ≤ r ≤ 10^9`, `|xc| ≤ 10^9` and `|yc| ≤ 10^9`, every integer
value the call computes (`1 - r`, the values of `x`, `y`, `d`, the
subexpressions of the update that is taken and the sixteen coordinates of
each iteration) lies between `-2^31` and `2^31 - 1`; and the computation on
wrapped 32-bit integers, given fuel for `r + 1` iterations, ends with exactly
the plot calls of the computation on exact integers. -/
theorem C16_no_overflow (xc yc r : Int)
    (hr0 : 0 ≤ r) (hr : r ≤ 10 ^ 9) (hxc : |xc| ≤ 10 ^ 9) (hyc : |yc| ≤ 10 ^ 9) :
    (∀ v ∈ computedValues xc yc r, -2 ^ 31 ≤ v ∧ v ≤ 2 ^ 31 - 1) ∧
    (∀ fuel : Nat, (r + 1).toNat ≤ fuel →
      midpointCircle32 fuel xc yc r = some (midpointCircle xc yc r)) := by
  have hr' : r ≤ 1000000000 := by norm_num at hr; exact hr
  have hxc' : -1000000000 ≤ xc ∧ xc ≤ 1000000000 := by
    have := abs_le.1 hxc
    norm_num at this
    exact this
  have hyc' : -1000000000 ≤ yc ∧ yc ≤ 1000000000 := by
    have := abs_le.1 hyc
    norm_num at this
    exact this
  constructor
  · intro v hv
    have goal : -2147483648 ≤ v ∧ v ≤ 2147483647 := by
      rw [computedValues, List.mem_append] at hv
      rcases hv with hv | hv
      · simp only [List.mem_cons, List.mem_singleton, List.not_mem_nil, or_false] at hv
        omega
      · obtain ⟨c, hc, hvc⟩ := List.mem_flatMap.1 hv
        obtain ⟨hx, hle, hy, hlo, hhi⟩ := range_invariant r hr0 c hc
        exact computedInBody_range xc yc r c hr' hxc' hyc' hx hle hy hlo hhi v hvc
    norm_num
    exact goal
  · intro fuel hfuel
    have hs : start32 r = start r := by
      simp only [start32, start, sub32]
      rw [wrap32_of_range (1 - r) (by omega)]
    obtain ⟨hx, hy, hd⟩ := start_range r hr0
    rw [midpointCircle32, hs, midpointCircle]
    refine loop32_eq_loop xc yc r hr' hxc' hyc' fuel (start r) hx hy hd ?_
    simp only [start]
    omega

/-- Witness for C16: radius 3 about `(10^9, -10^9)`, a centre on the
boundary of the claimed range. -/
theorem C16_no_overflow_witness :
    ((0 : Int) ≤ 3 ∧ (3 : Int) ≤ 10 ^ 9 ∧ |(1000000000 : Int)| ≤ 10 ^ 9 ∧
      |(-1000000000 : Int)| ≤ 10 ^ 9) ∧
    (∀ v ∈ computedValues 1000000000 (-1000000000) 3, -2 ^ 31 ≤ v ∧ v ≤ 2 ^ 31 - 1) ∧
    (∀ fuel : Nat, ((3 : Int) + 1).toNat ≤ fuel →
      midpointCircle32 fuel 1000000000 (-1000000000) 3 =
        some (midpointCircle 1000000000 (-1000000000) 3)) :=
  ⟨⟨by norm_num, by norm_num, by norm_num, by norm_num⟩,
    C16_no_overflow 1000000000 (-1000000000) 3 (by norm_num) (by norm_num) (by norm_num)
      (by norm_num)⟩

/-! ## The 32-bit run -/

theorem iterations32_of_not_le (fuel : Nat) (s : Cursor) (h : ¬ s.x ≤ s.y) :
    iterations32 fuel s = some [] := by
  cases fuel <;> rw [iterations32, if_neg h]

theorem loop32_of_not_le (xc yc : Int) (fuel : Nat) (s : Cursor) (h : ¬ s.x ≤ s.y) :
    loop32 xc yc fuel s = some [] := by
  cases fuel <;> rw [loop32, if_neg h]

theorem iterations32_succ_of_le (fuel : Nat) (s : Cursor) (h : s.x ≤ s.y) :
    iterations32 (fuel + 1) s =
      (iterations32 fuel (update32 s)).map (fun rest => s :: rest) := by
  rw [iterations32, if_pos h]

/-- The plot calls of the 32-bit loop are the eight plot calls of each of
its executed iterations, in order; in particular both runs end, or run out
of fuel, together. -/
theorem loop32_eq_iterations32 (xc yc : Int) (fuel : Nat) (s : Cursor) :
    loop32 xc yc fuel s =
      (iterations32 fuel s).map
        (fun its => its.flatMap (fun c => plotEight32 xc yc c.x c.y)) := by
  induction fuel generalizing s with
  | zero =>
    by_cases h : s.x ≤ s.y
    · rw [loop32, iterations32, if_pos h, if_pos h]; rfl
    · rw [loop32, iterations32, if_neg h, if_neg h]; rfl
  | succ n ih =>
    by_cases h : s.x ≤ s.y
    · rw [loop32, iterations32, if_pos h, if_pos h, ih (update32 s)]
      cases iterations32 n (update32 s) <;> rfl
    · rw [loop32, iterations32, if_neg h, if_neg h]; rfl

/-- The iterations of a 32-bit run that ends: the `k`-th one starts in the
state reached by `k` loop bodies, where the guard holds, and the state
reached after the last one fails the guard. -/
theorem iterations32_spec (fuel : Nat) :
    ∀ (s : Cursor) (its : List Cursor), iterations32 fuel s = some its →
      (∀ k, k < its.length →
        its[k]? = some (update32^[k] s) ∧ (update32^[k] s).x ≤ (update32^[k] s).y) ∧
      ¬ (update32^[its.length] s).x ≤ (update32^[its.length] s).y := by
  induction fuel with
  | zero =>
    intro s its h
    by_cases hg : s.x ≤ s.y
    · rw [iterations32, if_pos hg] at h; cases h
    · rw [iterations32, if_neg hg] at h
      cases h
      exact ⟨fun k hk => absurd hk (Nat.not_lt_zero k), hg⟩
  | succ n ih =>
    intro s its h
    by_cases hg : s.x ≤ s.y
    · rw [iterations32, if_pos hg] at h
      cases hrest : iterations32 n (update32 s) with
      | none => rw [hrest] at h; cases h
      | some rest =>
        rw [hrest] at h
        simp only [Option.map_some', Option.some.injEq] at h
        subst h
        obtain ⟨h1, h2⟩ := ih (update32 s) rest hrest
        refine ⟨fun k hk => ?_, ?_⟩
        · cases k with
          | zero => exact ⟨by simp, hg⟩
          | succ k =>
            have := h1 k (Nat.lt_of_succ_lt_succ hk)
            rw [Function.iterate_succ_apply, List.getElem?_cons_succ]
            exact this
        · rw [List.length_cons, Function.iterate_succ_apply]
          exact h2
    · rw [iterations32, if_neg hg] at h
      cases h
      exact ⟨fun k hk => absurd hk (Nat.not_lt_zero k), hg⟩

/-- In a 32-bit run that ends, a state reached through states that all pass
the guard, and passing it too, starts an executed iteration. -/
theorem iterations32_getElem (fuel : Nat) (s : Cursor) (its : List Cursor)
    (h : iterations32 fuel s = some its) (k : Nat)
    (hg : ∀ j, j ≤ k → (update32^[j] s).x ≤ (update32^[j] s).y) :
    its[k]? = some (update32^[k] s) := by
  obtain ⟨h1, h2⟩ := iterations32_spec fuel s its h
  have hk : k < its.length := by
    by_contra hc
    exact h2 (hg its.length (by omega))
  exact (h1 k hk).1

theorem mem_iterations32 (fuel : Nat) (s : Cursor) (its : List Cursor)
    (h : iterations32 fuel s = some its) (c : Cursor) (hc : c ∈ its) :
    c.x ≤ c.y ∧ ∃ k, k < its.length ∧ c = update32^[k] s := by
  obtain ⟨h1, _⟩ := iterations32_spec fuel s its h
  obtain ⟨k, hk, hkc⟩ := List.getElem_of_mem hc
  have := h1 k hk
  rw [List.getElem?_eq_getElem hk, hkc] at this
  have hc' : c = update32^[k] s := by simpa using this.1
  exact ⟨hc' ▸ this.2, k, hk, hc'⟩

/-! ## Termination of the 32-bit run -/

/-- On a cursor with `0 ≤ x ≤ y` below the greatest `int`, the 32-bit loop
body moves `x` and `y` exactly, whatever `d` is: `x` grows by 1, and `y` is
kept when `d < 0` and lowered by 1 otherwise. -/
theorem update32_cursor (s : Cursor) (hx : 0 ≤ s.x) (hle : s.x ≤ s.y)
    (hx1 : s.x ≤ 2147483646) (hy : s.y ≤ 2147483647) :
    (update32 s).x = s.x + 1 ∧
    (s.d < 0 → (update32 s).y = s.y) ∧ (¬ s.d < 0 → (update32 s).y = s.y - 1) := by
  by_cases h : s.d < 0
  · refine ⟨?_, fun _ => ?_, fun hn => absurd h hn⟩
    · simp only [update32, if_pos h, add32, wrap32]
      omega
    · simp only [update32, if_pos h]
  · refine ⟨?_, fun hn => absurd hn h, fun _ => ?_⟩
    · simp only [update32, if_neg h, add32, wrap32]
      omega
    · simp only [update32, if_neg h, sub32, wrap32]
      omega

/-- From a cursor with `0 ≤ x` and `y ≤ 2^31 - 2` the 32-bit loop ends within
`y - x + 1` iterations, whatever `d` is. -/
theorem iterations32_terminates_below (fuel : Nat) :
    ∀ s : Cursor, 0 ≤ s.x → s.y ≤ 2147483646 → (s.y - s.x + 1).toNat ≤ fuel →
      ∃ its, iterations32 fuel s = some its := by
  induction fuel with
  | zero =>
    intro s _ _ hf
    exact ⟨[], iterations32_of_not_le 0 s (by omega)⟩
  | succ n ih =>
    intro s hx hy hf
    by_cases hle : s.x ≤ s.y
    · obtain ⟨h1, h2, h3⟩ := update32_cursor s hx hle (by omega) (by omega)
      have hy' : (update32 s).y ≤ s.y := by
        by_cases hd : s.d < 0
        · rw [h2 hd]
        · rw [h3 hd]; omega
      obtain ⟨rest, hrest⟩ := ih (update32 s) (by omega) (by omega) (by omega)
      exact ⟨s :: rest, by rw [iterations32_succ_of_le n s hle, hrest]; rfl⟩
    · exact ⟨[], iterations32_of_not_le _ s hle⟩

/-- A 32-bit run whose first `k` states pass the guard ends when the run
from the state after `k` loop bodies ends. -/
theorem iterations32_add (k : Nat) :
    ∀ (fuel : Nat) (s : Cursor),
      (∀ j, j < k → (update32^[j] s).x ≤ (update32^[j] s).y) →
      (∃ its, iterations32 fuel (update32^[k] s) = some its) →
      ∃ its, iterations32 (fuel + k) s = some its := by
  induction k with
  | zero => intro fuel s _ h; exact h
  | succ k ih =>
    intro fuel s hg h
    have h0 : s.x ≤ s.y := hg 0 (Nat.succ_pos k)
    rw [Function.iterate_succ_apply] at h
    obtain ⟨rest, hrest⟩ := ih fuel (update32 s)
      (fun j hj => by
        have := hg (j + 1) (Nat.succ_lt_succ hj)
        rwa [Function.iterate_succ_apply] at this) h
    refine ⟨s :: rest, ?_⟩
    rw [← Nat.add_assoc, iterations32_succ_of_le _ s h0, hrest]
    rfl

/-- While `d < 0`, the 32-bit loop body computes `x + 1` and
`d + 2x + 3` exactly, for `x` up to `2^30 - 4`. -/
theorem update32_east (x y d : Int) (hx : 0 ≤ x) (hx1 : x ≤ 1073741820)
    (hd : -2147483648 ≤ d) (hd0 : d < 0) :
    update32 { x := x, y := y, d := d } = { x := x + 1, y := y, d := d + (2 * x + 3) } := by
  simp only [update32, if_pos hd0, add32, mul32, wrap32, Cursor.mk.injEq, true_and]
  constructor <;> omega

/-- A natural number whose square is below `2^31` is at most 46340. -/
theorem le_of_sq_lt (k : Nat) (r : Int) (hr : r ≤ 2147483647) (hk : (k : Int) ^ 2 < r) :
    k ≤ 46340 := by
  by_contra hc
  have h1 : (46341 : Int) ≤ (k : Int) := by omega
  nlinarith

/-- The first stretch of a 32-bit run, for `1 ≤ r ≤ 2^31 - 1`: as long as
`k² < r` the state after `k` loop bodies is `x = k`, `y = r`,
`d = (k+1)² − r`; no value has wrapped so far. -/
theorem east_run (r : Int) (hr1 : 1 ≤ r) (hr : r ≤ 2147483647) :
    ∀ k : Nat, (k : Int) ^ 2 < r →
      update32^[k] (start32 r) = { x := k, y := r, d := ((k : Int) + 1) ^ 2 - r } := by
  intro k
  induction k with
  | zero =>
    intro _
    simp only [Function.iterate_zero, id_eq, start32, sub32, Nat.cast_zero, zero_add, one_pow]
    rw [wrap32_of_range (1 - r) (by omega)]
  | succ k ih =>
    intro hk
    push_cast at hk
    have hk0 : (0 : Int) ≤ (k : Int) := Int.natCast_nonneg k
    have hk' : (k : Int) ^ 2 < r := by nlinarith
    have hk46 : k + 1 ≤ 46340 := le_of_sq_lt (k + 1) r hr (by push_cast; exact hk)
    rw [Function.iterate_succ_apply', ih hk',
      update32_east (k : Int) r _ hk0 (by omega) (by nlinarith) (by linarith)]
    simp only [Cursor.mk.injEq, true_and]
    constructor
    · push_cast; ring
    · push_cast; ring

/-- Along the first stretch of a 32-bit run the guard holds. -/
theorem east_run_guard (r : Int) (hr1 : 1 ≤ r) (hr : r ≤ 2147483647) (k : Nat)
    (hk : (k : Int) ^ 2 < r) :
    (update32^[k] (start32 r)).x ≤ (update32^[k] (start32 r)).y := by
  rw [east_run r hr1 hr k hk]
  have hk0 : (0 : Int) ≤ (k : Int) := Int.natCast_nonneg k
  simp only
  nlinarith

/-- For the greatest `int` radius the 32-bit run ends as well: after 46341
loop bodies `y` has been lowered once, to `2^31 - 2`. -/
theorem iterations32_terminates_max (fuel : Nat) (hf : 2147483648 ≤ fuel) :
    ∃ its, iterations32 fuel (start32 2147483647) = some its := by
  have hrun := east_run 2147483647 (by norm_num) (by norm_num) 46340 (by norm_num)
  have hsplit : fuel = (fuel - 46341) + 46341 := by omega
  rw [hsplit]
  refine iterations32_add 46341 (fuel - 46341) (start32 2147483647) ?_ ?_
  · intro j hj
    refine east_run_guard 2147483647 (by norm_num) (by norm_num) j ?_
    have h1 : (j : Int) ≤ 46340 := by omega
    have h0 : (0 : Int) ≤ (j : Int) := Int.natCast_nonneg j
    nlinarith
  · have hstep : update32^[46341] (start32 2147483647) =
        update32 (update32^[46340] (start32 2147483647)) :=
      Function.iterate_succ_apply' update32 46340 (start32 2147483647)
    rw [hstep, hrun]
    obtain ⟨h1, _, h3⟩ := update32_cursor
      { x := ((46340 : Nat) : Int), y := 2147483647, d := (((46340 : Nat) : Int) + 1) ^ 2 - 2147483647 }
      (by norm_num) (by norm_num) (by norm_num) (by norm_num)
    have h3' := h3 (by norm_num)
    simp only at h1 h3'
    refine iterations32_terminates_below (fuel - 46341) _ (by rw [h1]; norm_num)
      (by rw [h3']; norm_num) ?_
    rw [h1, h3']
    norm_num
    omega

/-- The 32-bit run ends for every `int` radius, within `r + 1` iterations. -/
theorem iterations32_terminates (r : Int) (hr : r ≤ 2147483647) (fuel : Nat)
    (hf : (r + 1).toNat ≤ fuel) :
    ∃ its, iterations32 fuel (start32 r) = some its := by
  rcases lt_or_le r 0 with hneg | hpos
  · exact ⟨[], iterations32_of_not_le fuel (start32 r) (by simp only [start32]; omega)⟩
  · rcases eq_or_lt_of_le hr with hmax | hlt
    · subst hmax
      exact iterations32_terminates_max fuel (by omega)
    · exact iterations32_terminates_below fuel (start32 r) (le_refl _)
        (by simp only [start32]; omega) (by simp only [start32]; omega)

/-- The 32-bit call ends for every `int` radius, with the eight plot calls
of each executed iteration. -/
theorem midpointCircle32_terminates (xc yc r : Int) (hr : r ≤ 2147483647) (fuel : Nat)
    (hf : (r + 1).toNat ≤ fuel) :
    ∃ its, iterations32 fuel (start32 r) = some its ∧
      midpointCircle32 fuel xc yc r =
        some (its.flatMap (fun c => plotEight32 xc yc c.x c.y)) := by
  obtain ⟨its, hits⟩ := iterations32_terminates r hr fuel hf
  refine ⟨its, hits, ?_⟩
  rw [midpointCircle32, loop32_eq_iterations32, hits]
  rfl

/-! ## Agreement of the two runs for `r ≤ 10^9` -/

/-- Within the bounds, and given fuel for `y - x + 1` iterations, the 32-bit
loop executes exactly the iterations of the exact loop. -/
theorem iterations32_eq_iterations (r : Int) (hr : r ≤ 1000000000) :
    ∀ (fuel : Nat) (s : Cursor), 0 ≤ s.x → s.y ≤ r →
      (s.x ≤ s.y → 2 * s.x + 1 - 2 * s.y ≤ s.d ∧ s.d ≤ 2 * s.x + 1) →
      (s.y - s.x + 1).toNat ≤ fuel →
      iterations32 fuel s = some (iterations s) := by
  intro fuel
  induction fuel with
  | zero =>
    intro s _ _ _ hfuel
    have hg : ¬ s.x ≤ s.y := by omega
    rw [iterations32_of_not_le 0 s hg, iterations_of_not_le s hg]
  | succ n ih =>
    intro s hx hy hd hfuel
    by_cases hle : s.x ≤ s.y
    · obtain ⟨hlo, hhi⟩ := hd hle
      obtain ⟨hx1, hy1, hd1⟩ := update_keeps_range r s hx hy hd hle
      have hm := update_measure s hle
      rw [iterations32_succ_of_le n s hle, update32_eq_update r s hr hx hle hy hlo hhi,
        ih (update s) hx1 hy1 hd1 (by omega), iterations_of_le s hle]
      rfl
    · rw [iterations32_of_not_le _ s hle, iterations_of_not_le s hle]

/-- For `r ≤ 10^9` the 32-bit run executes the iterations of the exact run. -/
theorem iterations32_start (r : Int) (hr : r ≤ 1000000000) (fuel : Nat)
    (hf : (r + 1).toNat ≤ fuel) :
    iterations32 fuel (start32 r) = some (iterations (start r)) := by
  rcases lt_or_le r 0 with hneg | hpos
  · rw [iterations32_of_not_le fuel (start32 r) (by simp only [start32]; omega),
      iterations_start_neg r hneg]
  · have hs : start32 r = start r := by
      simp only [start32, start, sub32]
      rw [wrap32_of_range (1 - r) (by omega)]
    obtain ⟨hx, hy, hd⟩ := start_range r hpos
    rw [hs]
    refine iterations32_eq_iterations r hr fuel (start r) hx hy hd ?_
    simp only [start]
    omega

/-- For `r ≤ 10^9` and a centre within `10^9` of the origin the 32-bit call
makes exactly the plot calls of the exact call. -/
theorem midpointCircle32_exact (xc yc r : Int) (hr : r ≤ 1000000000)
    (hxc : -1000000000 ≤ xc ∧ xc ≤ 1000000000)
    (hyc : -1000000000 ≤ yc ∧ yc ≤ 1000000000) (fuel : Nat)
    (hf : (r + 1).toNat ≤ fuel) :
    midpointCircle32 fuel xc yc r = some (midpointCircle xc yc r) := by
  rcases lt_or_le r 0 with hneg | hpos
  · rw [midpointCircle32, loop32_of_not_le xc yc fuel (start32 r)
      (by simp only [start32]; omega), midpointCircle_neg xc yc r hneg]
  · have hs : start32 r = start r := by
      simp only [start32, start, sub32]
      rw [wrap32_of_range (1 - r) (by omega)]
    obtain ⟨hx, hy, hd⟩ := start_range r hpos
    rw [midpointCircle32, hs, midpointCircle]
    refine loop32_eq_loop xc yc r hr hxc hyc fuel (start r) hx hy hd ?_
    simp only [start]
    omega

/-- For `0 ≤ r ≤ 10^9` the 32-bit state after any number of loop bodies up
to the last executed one is the exact state. -/
theorem iterate_update32_eq (r : Int) (hr0 : 0 ≤ r) (hr : r ≤ 1000000000) :
    ∀ k, k ≤ (iterations (start r)).length →
      update32^[k] (start32 r) = update^[k] (start r) := by
  have hs : start32 r = start r := by
    simp only [start32, start, sub32]
    rw [wrap32_of_range (1 - r) (by omega)]
  intro k
  induction k with
  | zero => intro _; exact hs
  | succ k ih =>
    intro hk
    rw [Function.iterate_succ_apply', Function.iterate_succ_apply', ih (by omega)]
    have hmem : update^[k] (start r) ∈ iterations (start r) :=
      (mem_iterations_iff (start r) _).2 ⟨k, by omega, rfl⟩
    obtain ⟨hx, hle, hy, hlo, hhi⟩ := range_invariant r hr0 _ hmem
    exact update32_eq_update r _ hr hx hle hy hlo hhi

/-- The bounds of the claims, `|z| ≤ 10^9`, in the form used by the lemmas. -/
theorem bounds_of_abs (z : Int) (h : |z| ≤ 10 ^ 9) :
    -1000000000 ≤ z ∧ z ≤ 1000000000 := by
  have := abs_le.1 h
  norm_num at this
  exact this

/-! ## A run in which `d` overflows -/

/-- The 32-bit loop body on the cursor `(33166, 1100000000)` with `d = 49889`:
`2 * (x - y) + 5 = -2199933663` is not representable, and `2095033633` is
added to `d` instead. -/
theorem update32_overflow_first :
    update32 { x := 33166, y := 1100000000, d := 49889 } =
      { x := 33167, y := 1099999999, d := 2095083522 } := by
  simp [update32, add32, sub32, mul32, wrap32]

/-- The loop body that follows. -/
theorem update32_overflow_second :
    update32 { x := 33167, y := 1099999999, d := 2095083522 } =
      { x := 33168, y := 1099999998, d := -104850137 } := by
  simp [update32, add32, sub32, mul32, wrap32]

/-- The 32-bit run for `r = 1100000000`: it ends, and its iterations 33166,
33167 and 33168 start in the states listed. -/
theorem overflow_run (fuel : Nat) (hf : 1100000001 ≤ fuel) :
    ∃ its, iterations32 fuel (start32 1100000000) = some its ∧
      its[33166]? = some { x := 33166, y := 1100000000, d := 49889 } ∧
      its[33167]? = some { x := 33167, y := 1099999999, d := 2095083522 } ∧
      its[33168]? = some { x := 33168, y := 1099999998, d := -104850137 } := by
  obtain ⟨its, hits⟩ := iterations32_terminates 1100000000 (by norm_num) fuel (by omega)
  have h0 : update32^[33166] (start32 1100000000) =
      { x := 33166, y := 1100000000, d := 49889 } := by
    rw [east_run 1100000000 (by norm_num) (by norm_num) 33166 (by norm_num)]
    norm_num
  have h1 : update32^[33167] (start32 1100000000) =
      { x := 33167, y := 1099999999, d := 2095083522 } := by
    rw [show update32^[33167] (start32 1100000000) =
        update32 (update32^[33166] (start32 1100000000)) from
      Function.iterate_succ_apply' update32 33166 (start32 1100000000), h0]
    exact update32_overflow_first
  have h2 : update32^[33168] (start32 1100000000) =
      { x := 33168, y := 1099999998, d := -104850137 } := by
    rw [show update32^[33168] (start32 1100000000) =
        update32 (update32^[33167] (start32 1100000000)) from
      Function.iterate_succ_apply' update32 33167 (start32 1100000000), h1]
    exact update32_overflow_second
  have hg : ∀ j, j ≤ 33168 →
      (update32^[j] (start32 1100000000)).x ≤ (update32^[j] (start32 1100000000)).y := by
    intro j hj
    rcases Nat.lt_or_ge j 33167 with hlt | hge
    · refine east_run_guard 1100000000 (by norm_num) (by norm_num) j ?_
      have hj1 : (j : Int) ≤ 33166 := by omega
      have hj0 : (0 : Int) ≤ (j : Int) := Int.natCast_nonneg j
      nlinarith
    · rcases Nat.eq_or_lt_of_le hge with heq | hgt
      · rw [← heq, h1]; norm_num
      · have : j = 33168 := by omega
        rw [this, h2]; norm_num
  refine ⟨its, hits, ?_, ?_, ?_⟩
  · rw [iterations32_getElem fuel _ its hits 33166 (fun j hj => hg j (by omega)), h0]
  · rw [iterations32_getElem fuel _ its hits 33167 (fun j hj => hg j (by omega)), h1]
  · rw [iterations32_getElem fuel _ its hits 33168 hg, h2]

/-! ## Claims settled on the 32-bit run -/

/-- C2, as stated, fails: for `r = 1` about the centre `(2147483647, 0)` the
program plots `(-2147483648, 0)`, the sum `xc + y` having wrapped, and this
point is not within distance 1 of the circle. -/
theorem C2_counterexample :
    midpointCircle32 2 2147483647 0 1 =
      some [(2147483647, 1), (2147483647, 1), (2147483647, -1), (2147483647, -1),
        (-2147483648, 0), (2147483646, 0), (-2147483648, 0), (2147483646, 0)] ∧
    ¬ (((1 : Int) - 1) ^ 2 < ((-2147483648 : Int) - 2147483647) ^ 2 + ((0 : Int) - 0) ^ 2 ∧
      ((-2147483648 : Int) - 2147483647) ^ 2 + ((0 : Int) - 0) ^ 2 < ((1 : Int) + 1) ^ 2) := by
  constructor
  · simp [midpointCircle32, loop32, start32, update32, plotEight32, drawPixel, add32, sub32,
      mul32, wrap32]
  · norm_num

/-- C2, amended. For `1 ≤ r ≤ 10^9`, `|xc| ≤ 10^9` and `|yc| ≤ 10^9` the call
ends, and every point `(X, Y)` it plots satisfies
`(r-1)² < (X-xc)² + (Y-yc)² < (r+1)²` in integer arithmetic: its Euclidean
distance to the centre differs from `r` by less than 1. -/
theorem C2_points_near_circle (xc yc r : Int) (hr1 : 1 ≤ r) (hr : r ≤ 10 ^ 9)
    (hxc : |xc| ≤ 10 ^ 9) (hyc : |yc| ≤ 10 ^ 9) (fuel : Nat) (hf : (r + 1).toNat ≤ fuel) :
    ∃ out, midpointCircle32 fuel xc yc r = some out ∧
      ∀ p ∈ out,
        ((r - 1) ^ 2 < (p.1 - xc) ^ 2 + (p.2 - yc) ^ 2 ∧
          (p.1 - xc) ^ 2 + (p.2 - yc) ^ 2 < (r + 1) ^ 2) ∧
        |Real.sqrt ((((p.1 - xc) ^ 2 + (p.2 - yc) ^ 2 : Int) : ℝ)) - (r : ℝ)| < 1 :=
  ⟨midpointCircle xc yc r,
    midpointCircle32_exact xc yc r (by norm_num at hr; exact hr) (bounds_of_abs xc hxc)
      (bounds_of_abs yc hyc) fuel hf,
    fun p hp => exact_points_near_circle xc yc r hr1 p hp⟩

/-- Witness for C2, amended: radius 3 about the origin. -/
theorem C2_points_near_circle_witness :
    ((1 : Int) ≤ 3 ∧ (3 : Int) ≤ 10 ^ 9 ∧ |(0 : Int)| ≤ 10 ^ 9 ∧ ((3 : Int) + 1).toNat ≤ 4) ∧
    ∃ out, midpointCircle32 4 0 0 3 = some out ∧
      ∀ p ∈ out,
        (((3 : Int) - 1) ^ 2 < (p.1 - 0) ^ 2 + (p.2 - 0) ^ 2 ∧
          (p.1 - 0) ^ 2 + (p.2 - 0) ^ 2 < ((3 : Int) + 1) ^ 2) ∧
        |Real.sqrt ((((p.1 - 0) ^ 2 + (p.2 - 0) ^ 2 : Int) : ℝ)) - ((3 : Int) : ℝ)| < 1 :=
  ⟨⟨by norm_num, by norm_num, by norm_num, by decide⟩,
    C2_points_near_circle 0 0 3 (by norm_num) (by norm_num) (by norm_num) (by norm_num) 4
      (by decide)⟩

/-- C3, as stated, fails: for `r = 2` about the centre `(2147483647, 0)` the
program plots `(xc + 0, yc + 2)` but not `(xc + 2, yc + 0) = (2147483649, 0)`;
the sum `xc + 2` wraps and `(-2147483647, 0)` is plotted. -/
theorem C3_counterexample :
    midpointCircle32 3 2147483647 0 2 =
      some [(2147483647, 2), (2147483647, 2), (2147483647, -2), (2147483647, -2),
        (-2147483647, 0), (2147483645, 0), (-2147483647, 0), (2147483645, 0),
        (-2147483648, 2), (2147483646, 2), (-2147483648, -2), (2147483646, -2),
        (-2147483647, 1), (2147483645, 1), (-2147483647, -1), (2147483645, -1)] ∧
    (((2147483647 : Int) + 0, (0 : Int) + 2) : Point) ∈
      [(2147483647, 2), (2147483647, 2), (2147483647, -2), (2147483647, -2),
        (-2147483647, 0), (2147483645, 0), (-2147483647, 0), (2147483645, 0),
        (-2147483648, 2), (2147483646, 2), (-2147483648, -2), (2147483646, -2),
        (-2147483647, 1), (2147483645, 1), (-2147483647, -1), (2147483645, -1)] ∧
    (((2147483647 : Int) + 2, (0 : Int) + 0) : Point) ∉
      [(2147483647, 2), (2147483647, 2), (2147483647, -2), (2147483647, -2),
        (-2147483647, 0), (2147483645, 0), (-2147483647, 0), (2147483645, 0),
        (-2147483648, 2), (2147483646, 2), (-2147483648, -2), (2147483646, -2),
        (-2147483647, 1), (2147483645, 1), (-2147483647, -1), (2147483645, -1)] := by
  refine ⟨?_, ?_, ?_⟩
  · simp [midpointCircle32, loop32, start32, update32, plotEight32, drawPixel, add32, sub32,
      mul32, wrap32]
  · simp
  · simp

/-- C3, amended. For `r ≤ 10^9`, `|xc| ≤ 10^9` and `|yc| ≤ 10^9` the call ends
and the points it plots are closed under the reflections about the centre:
with `(xc+a, yc+b)` also `(xc-a, yc+b)`, `(xc+a, yc-b)` and `(xc+b, yc+a)`
are plotted. -/
theorem C3_reflections (xc yc r : Int) (hr : r ≤ 10 ^ 9)
    (hxc : |xc| ≤ 10 ^ 9) (hyc : |yc| ≤ 10 ^ 9) (fuel : Nat) (hf : (r + 1).toNat ≤ fuel) :
    ∃ out, midpointCircle32 fuel xc yc r = some out ∧
      ∀ a b : Int, (xc + a, yc + b) ∈ out →
        (xc - a, yc + b) ∈ out ∧ (xc + a, yc - b) ∈ out ∧ (xc + b, yc + a) ∈ out :=
  ⟨midpointCircle xc yc r,
    midpointCircle32_exact xc yc r (by norm_num at hr; exact hr) (bounds_of_abs xc hxc)
      (bounds_of_abs yc hyc) fuel hf,
    fun a b h => exact_reflections xc yc r a b h⟩

/-- Witness for C3, amended: radius 3 about `(5, -7)`. -/
theorem C3_reflections_witness :
    ((3 : Int) ≤ 10 ^ 9 ∧ |(5 : Int)| ≤ 10 ^ 9 ∧ |(-7 : Int)| ≤ 10 ^ 9 ∧
      ((3 : Int) + 1).toNat ≤ 4) ∧
    ∃ out, midpointCircle32 4 5 (-7) 3 = some out ∧
      ∀ a b : Int, (5 + a, -7 + b) ∈ out →
        (5 - a, -7 + b) ∈ out ∧ (5 + a, -7 - b) ∈ out ∧ (5 + b, -7 + a) ∈ out :=
  ⟨⟨by norm_num, by norm_num, by norm_num, by decide⟩,
    C3_reflections 5 (-7) 3 (by norm_num) (by norm_num) (by norm_num) 4 (by decide)⟩

/-- C4, as stated, fails: for `r = 1` about the centre `(0, 2147483647)` the
first plot call of the first iteration, whose cursor is `(0, 1)`, is at
`(0, -2147483648)` and not at `(xc + x, yc + y) = (0, 2147483648)`. -/
theorem C4_counterexample :
    midpointCircle32 2 0 2147483647 1 =
      some [(0, -2147483648), (0, -2147483648), (0, 2147483646), (0, 2147483646),
        (1, 2147483647), (-1, 2147483647), (1, 2147483647), (-1, 2147483647)] ∧
    iterations32 2 (start32 1) = some [{ x := 0, y := 1, d := 0 }] ∧
    (((0 : Int), (-2147483648 : Int)) : Point) ≠ ((0 : Int) + 0, (2147483647 : Int) + 1) := by
  refine ⟨?_, ?_, ?_⟩
  · simp [midpointCircle32, loop32, start32, update32, plotEight32, drawPixel, add32, sub32,
      mul32, wrap32]
  · simp [iterations32, start32, update32, add32, sub32, mul32, wrap32]
  · simp

/-- C4, amended. For every `int` radius and every centre the call ends, and
each executed iteration, with cursor `(x, y)`, makes exactly eight plot
calls, at `(xc+x,yc+y), (xc-x,yc+y), (xc+x,yc-y), (xc-x,yc-y), (xc+y,yc+x),
(xc-y,yc+x), (xc+y,yc-x), (xc-y,yc-x)` in this order, the sums and
differences being those of 32-bit `int` arithmetic; nothing is deduplicated,
so 8 times the number of iterations plot calls are made.  For `r ≤ 10^9`,
`|xc| ≤ 10^9` and `|yc| ≤ 10^9` the coordinates are the exact sums and
differences. -/
theorem C4_eight_plots_per_iteration (xc yc r : Int) (hr : r ≤ 2147483647)
    (fuel : Nat) (hf : (r + 1).toNat ≤ fuel) :
    ∃ its out, iterations32 fuel (start32 r) = some its ∧
      midpointCircle32 fuel xc yc r = some out ∧
      out = its.flatMap (fun c =>
        [(add32 xc c.x, add32 yc c.y), (sub32 xc c.x, add32 yc c.y),
         (add32 xc c.x, sub32 yc c.y), (sub32 xc c.x, sub32 yc c.y),
         (add32 xc c.y, add32 yc c.x), (sub32 xc c.y, add32 yc c.x),
         (add32 xc c.y, sub32 yc c.x), (sub32 xc c.y, sub32 yc c.x)]) ∧
      out.length = 8 * its.length ∧
      (r ≤ 10 ^ 9 → |xc| ≤ 10 ^ 9 → |yc| ≤ 10 ^ 9 →
        out = its.flatMap (fun c =>
          [(xc + c.x, yc + c.y), (xc - c.x, yc + c.y), (xc + c.x, yc - c.y),
           (xc - c.x, yc - c.y), (xc + c.y, yc + c.x), (xc - c.y, yc + c.x),
           (xc + c.y, yc - c.x), (xc - c.y, yc - c.x)])) := by
  obtain ⟨its, hits, hout⟩ := midpointCircle32_terminates xc yc r hr fuel hf
  refine ⟨its, _, hits, hout, ?_, ?_, ?_⟩
  · simp only [plotEight32, drawPixel, List.cons_append, List.nil_append]
  · clear hits hout
    induction its with
    | nil => rfl
    | cons c tl ih =>
      rw [List.flatMap_cons, List.length_append, ih, List.length_cons]
      simp only [plotEight32, drawPixel, List.cons_append, List.nil_append, List.length_cons,
        List.length_nil]
      omega
  · intro h1 h2 h3
    have hr' : r ≤ 1000000000 := by norm_num at h1; exact h1
    have hexact := midpointCircle32_exact xc yc r hr' (bounds_of_abs xc h2)
      (bounds_of_abs yc h3) fuel hf
    have hits' := iterations32_start r hr' fuel hf
    rw [hits] at hits'
    rw [hout] at hexact
    have e1 : its = iterations (start r) := Option.some.inj hits'
    have e2 := Option.some.inj hexact
    rw [e2, e1]
    exact (exact_eight_plots xc yc r).1

/-- Witness for C4, amended: radius 3 about `(5, -7)`. -/
theorem C4_eight_plots_per_iteration_witness :
    ((3 : Int) ≤ 2147483647 ∧ ((3 : Int) + 1).toNat ≤ 4) ∧
    ∃ its out, iterations32 4 (start32 3) = some its ∧
      midpointCircle32 4 5 (-7) 3 = some out ∧
      out = its.flatMap (fun c =>
        [(add32 5 c.x, add32 (-7) c.y), (sub32 5 c.x, add32 (-7) c.y),
         (add32 5 c.x, sub32 (-7) c.y), (sub32 5 c.x, sub32 (-7) c.y),
         (add32 5 c.y, add32 (-7) c.x), (sub32 5 c.y, add32 (-7) c.x),
         (add32 5 c.y, sub32 (-7) c.x), (sub32 5 c.y, sub32 (-7) c.x)]) ∧
      out.length = 8 * its.length ∧
      ((3 : Int) ≤ 10 ^ 9 → |(5 : Int)| ≤ 10 ^ 9 → |(-7 : Int)| ≤ 10 ^ 9 →
        out = its.flatMap (fun c =>
          [(5 + c.x, -7 + c.y), (5 - c.x, -7 + c.y), (5 + c.x, -7 - c.y),
           (5 - c.x, -7 - c.y), (5 + c.y, -7 + c.x), (5 - c.y, -7 + c.x),
           (5 + c.y, -7 - c.x), (5 - c.y, -7 - c.x)])) :=
  ⟨⟨by norm_num, by decide⟩,
    C4_eight_plots_per_iteration 5 (-7) 3 (by norm_num) 4 (by decide)⟩

/-- C8. For every `int` radius `r ≥ 0` and every centre the call ends and
has plotted something: its output is not empty and begins with the eight
plot calls of the first iteration, whose cursor is `(0, r)`, at the
coordinates that 32-bit `int` arithmetic gives them. -/
theorem C8_plots_first_iteration (xc yc r : Int) (hr0 : 0 ≤ r) (hr : r ≤ 2147483647)
    (fuel : Nat) (hf : (r + 1).toNat ≤ fuel) :
    ∃ out, midpointCircle32 fuel xc yc r = some out ∧ out ≠ [] ∧
      ((start32 r).x = 0 ∧ (start32 r).y = r) ∧
      ∃ rest : List Point, out =
        [(add32 xc 0, add32 yc r), (sub32 xc 0, add32 yc r),
         (add32 xc 0, sub32 yc r), (sub32 xc 0, sub32 yc r),
         (add32 xc r, add32 yc 0), (sub32 xc r, add32 yc 0),
         (add32 xc r, sub32 yc 0), (sub32 xc r, sub32 yc 0)] ++ rest := by
  obtain ⟨its, hits, hout⟩ := midpointCircle32_terminates xc yc r hr fuel hf
  have h0 : its[0]? = some (start32 r) :=
    iterations32_getElem fuel (start32 r) its hits 0 (fun j hj => by
      have : j = 0 := by omega
      subst this
      exact hr0)
  cases its with
  | nil => simp at h0
  | cons c tl =>
    have hc : c = start32 r := by simpa using h0
    subst hc
    have hshape : List.flatMap (start32 r :: tl) (fun c => plotEight32 xc yc c.x c.y) =
        [(add32 xc 0, add32 yc r), (sub32 xc 0, add32 yc r),
         (add32 xc 0, sub32 yc r), (sub32 xc 0, sub32 yc r),
         (add32 xc r, add32 yc 0), (sub32 xc r, add32 yc 0),
         (add32 xc r, sub32 yc 0), (sub32 xc r, sub32 yc 0)] ++
          tl.flatMap (fun c => plotEight32 xc yc c.x c.y) := by
      rw [List.flatMap_cons]
      simp only [plotEight32, drawPixel, start32, List.cons_append, List.nil_append]
    refine ⟨_, hout, ?_, ⟨rfl, rfl⟩, _, hshape⟩
    rw [hshape]
    simp

/-- Witness for C8: radius 0 about `(2147483647, -2147483648)`, the corner of
the `int` range. -/
theorem C8_plots_first_iteration_witness :
    ((0 : Int) ≤ 0 ∧ (0 : Int) ≤ 2147483647 ∧ ((0 : Int) + 1).toNat ≤ 1) ∧
    ∃ out, midpointCircle32 1 2147483647 (-2147483648) 0 = some out ∧ out ≠ [] ∧
      ((start32 0).x = 0 ∧ (start32 0).y = 0) ∧
      ∃ rest : List Point, out =
        [(add32 2147483647 0, add32 (-2147483648) 0), (sub32 2147483647 0, add32 (-2147483648) 0),
         (add32 2147483647 0, sub32 (-2147483648) 0), (sub32 2147483647 0, sub32 (-2147483648) 0),
         (add32 2147483647 0, add32 (-2147483648) 0), (sub32 2147483647 0, add32 (-2147483648) 0),
         (add32 2147483647 0, sub32 (-2147483648) 0), (sub32 2147483647 0, sub32 (-2147483648) 0)]
          ++ rest :=
  ⟨⟨by norm_num, by norm_num, by decide⟩,
    C8_plots_first_iteration 2147483647 (-2147483648) 0 (by norm_num) (by norm_num) 1
      (by decide)⟩

/-- C9, as stated, fails: for `r = -2147483648` the subtraction `1 - r`
overflows and `d` starts at `-2147483647`, not at `1 - r = 2147483649`. -/
theorem C9_counterexample :
    start32 (-2147483648) = { x := 0, y := -2147483648, d := -2147483647 } ∧
    (start32 (-2147483648)).d ≠ 1 - (-2147483648) := by
  constructor <;> simp [start32, sub32, wrap32]

/-- C9, amended. For every `int` radius the cursor starts at `x = 0`, `y = r`,
and `d` starts at `1 - r` whenever this is an `int`, that is, for
`r ≥ -2^31 + 2`.  The call ends; its plot calls are those of the executed
iterations, and `x ≤ y` holds at the start of each of them.  The loop is
left exactly when `x > y` first holds: the `k`-th executed iteration starts
in the state reached by `k` loop bodies, where `x ≤ y`, and the state reached
after the last one has `x > y`. -/
theorem C9_guard_invariant (xc yc r : Int) (hr : r ≤ 2147483647)
    (fuel : Nat) (hf : (r + 1).toNat ≤ fuel) :
    ((start32 r).x = 0 ∧ (start32 r).y = r ∧
      (-2147483646 ≤ r → (start32 r).d = 1 - r)) ∧
    ∃ its, iterations32 fuel (start32 r) = some its ∧
      midpointCircle32 fuel xc yc r =
        some (its.flatMap (fun c => plotEight32 xc yc c.x c.y)) ∧
      (∀ c ∈ its, c.x ≤ c.y) ∧
      (∀ k, k < its.length →
        its[k]? = some (update32^[k] (start32 r)) ∧
        (update32^[k] (start32 r)).x ≤ (update32^[k] (start32 r)).y) ∧
      (update32^[its.length] (start32 r)).y < (update32^[its.length] (start32 r)).x := by
  obtain ⟨its, hits, hout⟩ := midpointCircle32_terminates xc yc r hr fuel hf
  obtain ⟨h1, h2⟩ := iterations32_spec fuel (start32 r) its hits
  refine ⟨⟨rfl, rfl, fun hlo => ?_⟩, its, hits, hout, ?_, h1, lt_of_not_le h2⟩
  · simp only [start32, sub32]
    exact wrap32_of_range (1 - r) (by omega)
  · intro c hc
    exact (mem_iterations32 fuel (start32 r) its hits c hc).1

/-- Witness for C9, amended: radius 3 about `(2147483647, -2147483648)`. -/
theorem C9_guard_invariant_witness :
    ((3 : Int) ≤ 2147483647 ∧ ((3 : Int) + 1).toNat ≤ 4) ∧
    ((start32 3).x = 0 ∧ (start32 3).y = 3 ∧
      ((-2147483646 : Int) ≤ 3 → (start32 3).d = 1 - 3)) ∧
    ∃ its, iterations32 4 (start32 3) = some its ∧
      midpointCircle32 4 2147483647 (-2147483648) 3 =
        some (its.flatMap (fun c => plotEight32 2147483647 (-2147483648) c.x c.y)) ∧
      (∀ c ∈ its, c.x ≤ c.y) ∧
      (∀ k, k < its.length →
        its[k]? = some (update32^[k] (start32 3)) ∧
        (update32^[k] (start32 3)).x ≤ (update32^[k] (start32 3)).y) ∧
      (update32^[its.length] (start32 3)).y < (update32^[its.length] (start32 3)).x :=
  ⟨⟨by norm_num, by decide⟩,
    C9_guard_invariant 2147483647 (-2147483648) 3 (by norm_num) 4 (by decide)⟩

/-- C10, as stated, fails: for `r = 1100000000` iteration 33166 starts with
cursor `(33166, 1100000000)` and `d = 49889`; the change of the metric,
`2(x − y) + 5 = −2199933663`, is not an `int`, and the loop body adds
`2095033633` to `d`. -/
theorem C10_counterexample :
    ∃ its, iterations32 1100000001 (start32 1100000000) = some its ∧
      its[33166]? = some { x := 33166, y := 1100000000, d := 49889 } ∧
      update32 { x := 33166, y := 1100000000, d := 49889 } =
        { x := 33167, y := 1099999999, d := 2095083522 } ∧
      (((2095083522 - 49889 : Int)) : ℚ) ≠
        midpointMetric 1100000000 33167 1099999999 -
          midpointMetric 1100000000 33166 1100000000 := by
  obtain ⟨its, hits, h0, _, _⟩ := overflow_run 1100000001 (le_refl _)
  refine ⟨its, hits, h0, update32_overflow_first, ?_⟩
  simp only [midpointMetric]
  norm_num

/-- C10, amended. For `r ≤ 10^9` the call ends, and in every executed loop
body the amount added to `d` is the change of the metric
`F(x, y) = (x+1)² + (y − 1/2)² − r²` from the cursor before the step to the
cursor after it: on the branch `d < 0` the cursor moves to `(x+1, y)` and
`2x + 3 = F(x+1, y) − F(x, y)` is added; on the other branch it moves to
`(x+1, y−1)` and `2(x − y) + 5 = F(x+1, y−1) − F(x, y)` is added. -/
theorem C10_update_is_metric_delta (r : Int) (hr : r ≤ 10 ^ 9)
    (fuel : Nat) (hf : (r + 1).toNat ≤ fuel) :
    ∃ its, iterations32 fuel (start32 r) = some its ∧
      ∀ c ∈ its,
        (((update32 c).d - c.d : Int) : ℚ) =
          midpointMetric r (update32 c).x (update32 c).y - midpointMetric r c.x c.y ∧
        (if c.d < 0 then
          (update32 c).d = c.d + (2 * c.x + 3) ∧
          (update32 c).x = c.x + 1 ∧ (update32 c).y = c.y ∧
          ((2 * c.x + 3 : Int) : ℚ) =
            midpointMetric r (c.x + 1) c.y - midpointMetric r c.x c.y
        else
          (update32 c).d = c.d + (2 * (c.x - c.y) + 5) ∧
          (update32 c).x = c.x + 1 ∧ (update32 c).y = c.y - 1 ∧
          ((2 * (c.x - c.y) + 5 : Int) : ℚ) =
            midpointMetric r (c.x + 1) (c.y - 1) - midpointMetric r c.x c.y) := by
  have hr' : r ≤ 1000000000 := by norm_num at hr; exact hr
  refine ⟨iterations (start r), iterations32_start r hr' fuel hf, fun c hc => ?_⟩
  rcases lt_or_le r 0 with hneg | hpos
  · rw [iterations_start_neg r hneg] at hc
    cases hc
  · obtain ⟨hx, hle, hy, hlo, hhi⟩ := range_invariant r hpos c hc
    rw [update32_eq_update r c hr' hx hle hy hlo hhi]
    exact update_metric_delta r c

/-- Witness for C10, amended: radius 3. -/
theorem C10_update_is_metric_delta_witness :
    ((3 : Int) ≤ 10 ^ 9 ∧ ((3 : Int) + 1).toNat ≤ 4) ∧
    ∃ its, iterations32 4 (start32 3) = some its ∧
      ∀ c ∈ its,
        (((update32 c).d - c.d : Int) : ℚ) =
          midpointMetric 3 (update32 c).x (update32 c).y - midpointMetric 3 c.x c.y ∧
        (if c.d < 0 then
          (update32 c).d = c.d + (2 * c.x + 3) ∧
          (update32 c).x = c.x + 1 ∧ (update32 c).y = c.y ∧
          ((2 * c.x + 3 : Int) : ℚ) =
            midpointMetric 3 (c.x + 1) c.y - midpointMetric 3 c.x c.y
        else
          (update32 c).d = c.d + (2 * (c.x - c.y) + 5) ∧
          (update32 c).x = c.x + 1 ∧ (update32 c).y = c.y - 1 ∧
          ((2 * (c.x - c.y) + 5 : Int) : ℚ) =
            midpointMetric 3 (c.x + 1) (c.y - 1) - midpointMetric 3 c.x c.y) :=
  ⟨⟨by norm_num, by decide⟩, C10_update_is_metric_delta 3 (by norm_num) 4 (by decide)⟩

/-- C11, as stated, fails: for `r = 1100000000` iteration 33168 plots at the
cursor `(33168, 1099999998)`, where `4(r² − x²) < (2y + 1)²` is false: `d`
has overflowed in the loop body before, and `y` has been lowered once too
often. -/
theorem C11_counterexample :
    ∃ its, iterations32 1100000001 (start32 1100000000) = some its ∧
      its[33168]? = some { x := 33168, y := 1099999998, d := -104850137 } ∧
      ¬ ((2 * (1099999998 : Int) - 1) ^ 2 < 4 * ((1100000000 : Int) ^ 2 - 33168 ^ 2) ∧
        4 * ((1100000000 : Int) ^ 2 - 33168 ^ 2) < (2 * (1099999998 : Int) + 1) ^ 2) := by
  obtain ⟨its, hits, _, _, h2⟩ := overflow_run 1100000001 (le_refl _)
  exact ⟨its, hits, h2, by norm_num⟩

/-- C11, amended. For `1 ≤ r ≤ 10^9` the call ends, and at every cursor
`(x, y)` at which it plots, `y` is the integer nearest to `sqrt (r² − x²)`
and there is no tie: `(2y − 1)² < 4(r² − x²) < (2y + 1)²`, that is, `r² − x²`
is not negative and `|y − sqrt (r² − x²)| < 1/2`. -/
theorem C11_nearest_integer (r : Int) (hr1 : 1 ≤ r) (hr : r ≤ 10 ^ 9)
    (fuel : Nat) (hf : (r + 1).toNat ≤ fuel) :
    ∃ its, iterations32 fuel (start32 r) = some its ∧
      ∀ c ∈ its,
        ((2 * c.y - 1) ^ 2 < 4 * (r ^ 2 - c.x ^ 2) ∧
          4 * (r ^ 2 - c.x ^ 2) < (2 * c.y + 1) ^ 2) ∧
        0 ≤ r ^ 2 - c.x ^ 2 ∧
        |(c.y : ℝ) - Real.sqrt (((r ^ 2 - c.x ^ 2 : Int)) : ℝ)| < 1 / 2 :=
  ⟨iterations (start r), iterations32_start r (by norm_num at hr; exact hr) fuel hf,
    fun c hc => exact_nearest_integer r hr1 c hc⟩

/-- Witness for C11, amended: radius 3. -/
theorem C11_nearest_integer_witness :
    ((1 : Int) ≤ 3 ∧ (3 : Int) ≤ 10 ^ 9 ∧ ((3 : Int) + 1).toNat ≤ 4) ∧
    ∃ its, iterations32 4 (start32 3) = some its ∧
      ∀ c ∈ its,
        ((2 * c.y - 1) ^ 2 < 4 * ((3 : Int) ^ 2 - c.x ^ 2) ∧
          4 * ((3 : Int) ^ 2 - c.x ^ 2) < (2 * c.y + 1) ^ 2) ∧
        0 ≤ (3 : Int) ^ 2 - c.x ^ 2 ∧
        |(c.y : ℝ) - Real.sqrt ((((3 : Int) ^ 2 - c.x ^ 2 : Int)) : ℝ)| < 1 / 2 :=
  ⟨⟨by norm_num, by norm_num, by decide⟩,
    C11_nearest_integer 3 (by norm_num) (by norm_num) 4 (by decide)⟩

/-- C12, as stated, fails: for `r = 1100000000` iteration 33167 starts with
cursor `(33167, 1099999999)` and `d = 2095083522`, where
`4d + 1 = 4(x+1)² + (2y − 1)² − 4r²` is false: the right-hand side is
`-8799535095`. -/
theorem C12_counterexample :
    ∃ its, iterations32 1100000001 (start32 1100000000) = some its ∧
      its[33167]? = some { x := 33167, y := 1099999999, d := 2095083522 } ∧
      4 * (2095083522 : Int) + 1 ≠
        4 * ((33167 : Int) + 1) ^ 2 + (2 * (1099999999 : Int) - 1) ^ 2
          - 4 * (1100000000 : Int) ^ 2 := by
  obtain ⟨its, hits, _, h1, _⟩ := overflow_run 1100000001 (le_refl _)
  exact ⟨its, hits, h1, by norm_num⟩

/-- C12, amended. For `0 ≤ r ≤ 10^9` the call ends, and at the start of every
executed iteration and in the state left by the final update,
`4d + 1 = 4(x+1)² + (2y − 1)² − 4r²`: `d` is the midpoint metric
`(x+1)² + (y − 1/2)² − r²` less exactly `1/4`, and `d < 0` holds if and only
if the midpoint `(x+1, y − 1/2)` lies strictly inside the circle. -/
theorem C12_decision_closed_form (r : Int) (hr0 : 0 ≤ r) (hr : r ≤ 10 ^ 9)
    (fuel : Nat) (hf : (r + 1).toNat ≤ fuel) :
    ∃ its, iterations32 fuel (start32 r) = some its ∧
      ∀ s : Cursor, (s ∈ its ∨ s = update32^[its.length] (start32 r)) →
        4 * s.d + 1 = 4 * (s.x + 1) ^ 2 + (2 * s.y - 1) ^ 2 - 4 * r ^ 2 ∧
        (s.d : ℚ) = midpointMetric r s.x s.y - 1 / 4 ∧
        (s.d < 0 ↔ ((s.x : ℚ) + 1) ^ 2 + ((s.y : ℚ) - 1 / 2) ^ 2 < (r : ℚ) ^ 2) := by
  have hr' : r ≤ 1000000000 := by norm_num at hr; exact hr
  refine ⟨iterations (start r), iterations32_start r hr' fuel hf, fun s hs => ?_⟩
  rcases hs with hs | hs
  · obtain ⟨k, _, rfl⟩ := (mem_iterations_iff (start r) s).1 hs
    exact decision_metric r _ (iterate_decision r k)
  · rw [hs, iterate_update32_eq r hr0 hr' _ (le_refl _)]
    exact decision_metric r _ (iterate_decision r _)

/-- Witness for C12, amended: radius 3. -/
theorem C12_decision_closed_form_witness :
    ((0 : Int) ≤ 3 ∧ (3 : Int) ≤ 10 ^ 9 ∧ ((3 : Int) + 1).toNat ≤ 4) ∧
    ∃ its, iterations32 4 (start32 3) = some its ∧
      ∀ s : Cursor, (s ∈ its ∨ s = update32^[its.length] (start32 3)) →
        4 * s.d + 1 = 4 * (s.x + 1) ^ 2 + (2 * s.y - 1) ^ 2 - 4 * (3 : Int) ^ 2 ∧
        (s.d : ℚ) = midpointMetric 3 s.x s.y - 1 / 4 ∧
        (s.d < 0 ↔ ((s.x : ℚ) + 1) ^ 2 + ((s.y : ℚ) - 1 / 2) ^ 2 < ((3 : Int) : ℚ) ^ 2) :=
  ⟨⟨by norm_num, by norm_num, by decide⟩,
    C12_decision_closed_form 3 (by norm_num) (by norm_num) 4 (by decide)⟩

/-- C14, as stated, fails: for `r = 2` the output about `(2147483647, 0)` is
not the output about `(0, 0)` with `(2147483647, 0)` added to every point:
where the latter has `(2, 0)`, the former has `(-2147483647, 0)` and not
`(2147483649, 0)`. -/
theorem C14_counterexample :
    midpointCircle32 3 0 0 2 =
      some [(0, 2), (0, 2), (0, -2), (0, -2), (2, 0), (-2, 0), (2, 0), (-2, 0),
        (1, 2), (-1, 2), (1, -2), (-1, -2), (2, 1), (-2, 1), (2, -1), (-2, -1)] ∧
    midpointCircle32 3 2147483647 0 2 =
      some [(2147483647, 2), (2147483647, 2), (2147483647, -2), (2147483647, -2),
        (-2147483647, 0), (2147483645, 0), (-2147483647, 0), (2147483645, 0),
        (-2147483648, 2), (2147483646, 2), (-2147483648, -2), (2147483646, -2),
        (-2147483647, 1), (2147483645, 1), (-2147483647, -1), (2147483645, -1)] ∧
    ([(2147483647, 2), (2147483647, 2), (2147483647, -2), (2147483647, -2),
        (-2147483647, 0), (2147483645, 0), (-2147483647, 0), (2147483645, 0),
        (-2147483648, 2), (2147483646, 2), (-2147483648, -2), (2147483646, -2),
        (-2147483647, 1), (2147483645, 1), (-2147483647, -1), (2147483645, -1)] : List Point) ≠
      ([(0, 2), (0, 2), (0, -2), (0, -2), (2, 0), (-2, 0), (2, 0), (-2, 0),
        (1, 2), (-1, 2), (1, -2), (-1, -2), (2, 1), (-2, 1), (2, -1), (-2, -1)] :
          List Point).map (fun p => (p.1 + 2147483647, p.2 + 0)) := by
  refine ⟨?_, ?_, ?_⟩
  · simp [midpointCircle32, loop32, start32, update32, plotEight32, drawPixel, add32, sub32,
      mul32, wrap32]
  · simp [midpointCircle32, loop32, start32, update32, plotEight32, drawPixel, add32, sub32,
      mul32, wrap32]
  · simp

/-- C14, amended. For `r ≤ 10^9`, `|xc| ≤ 10^9` and `|yc| ≤ 10^9` the plot calls
of the call about `(xc, yc)` are those of the call about `(0, 0)`, in the
same order, with `(xc, yc)` added to every point.  The executed iterations,
hence their number and the values of `x`, `y`, `d`, are computed without
the centre. -/
theorem C14_translation (xc yc r : Int) (hr : r ≤ 10 ^ 9)
    (hxc : |xc| ≤ 10 ^ 9) (hyc : |yc| ≤ 10 ^ 9) (fuel : Nat) (hf : (r + 1).toNat ≤ fuel) :
    ∃ out0 its, midpointCircle32 fuel 0 0 r = some out0 ∧
      midpointCircle32 fuel xc yc r = some (out0.map (fun p => (p.1 + xc, p.2 + yc))) ∧
      iterations32 fuel (start32 r) = some its ∧
      out0 = its.flatMap (fun c => plotEight32 0 0 c.x c.y) ∧
      out0.map (fun p => (p.1 + xc, p.2 + yc)) =
        its.flatMap (fun c => plotEight32 xc yc c.x c.y) := by
  have hr' : r ≤ 1000000000 := by norm_num at hr; exact hr
  have h0 := midpointCircle32_exact 0 0 r hr' (by norm_num) (by norm_num) fuel hf
  have h1 := midpointCircle32_exact xc yc r hr' (bounds_of_abs xc hxc)
    (bounds_of_abs yc hyc) fuel hf
  obtain ⟨its, hits, hout0⟩ := midpointCircle32_terminates 0 0 r (by omega) fuel hf
  obtain ⟨its', hits', hout⟩ := midpointCircle32_terminates xc yc r (by omega) fuel hf
  have e : its' = its := Option.some.inj (hits'.symm.trans hits)
  subst e
  have e0 : midpointCircle 0 0 r = its'.flatMap (fun c => plotEight32 0 0 c.x c.y) :=
    Option.some.inj (h0.symm.trans hout0)
  have e1 : midpointCircle xc yc r = its'.flatMap (fun c => plotEight32 xc yc c.x c.y) :=
    Option.some.inj (h1.symm.trans hout)
  refine ⟨midpointCircle 0 0 r, its', h0, ?_, hits, e0, ?_⟩
  · rw [h1, (exact_translation xc yc r).1]
  · rw [← e1, (exact_translation xc yc r).1]

/-- Witness for C14, amended: radius 3 about `(5, -7)`. -/
theorem C14_translation_witness :
    ((3 : Int) ≤ 10 ^ 9 ∧ |(5 : Int)| ≤ 10 ^ 9 ∧ |(-7 : Int)| ≤ 10 ^ 9 ∧
      ((3 : Int) + 1).toNat ≤ 4) ∧
    ∃ out0 its, midpointCircle32 4 0 0 3 = some out0 ∧
      midpointCircle32 4 5 (-7) 3 = some (out0.map (fun p => (p.1 + 5, p.2 + -7))) ∧
      iterations32 4 (start32 3) = some its ∧
      out0 = its.flatMap (fun c => plotEight32 0 0 c.x c.y) ∧
      out0.map (fun p => (p.1 + 5, p.2 + -7)) =
        its.flatMap (fun c => plotEight32 5 (-7) c.x c.y) :=
  ⟨⟨by norm_num, by norm_num, by norm_num, by decide⟩,
    C14_translation 5 (-7) 3 (by norm_num) (by norm_num) (by norm_num) 4 (by decide)⟩

end FishScene
